import Mathlib

/-!
Verification of the Drafts AI Engine (a multi-provider AI dispatch library
for the Drafts app) against its natural-language specification.

The development shallowly embeds the two engine sources:
  * `P1`  — the IIFE engine version (src/unnamed/part_001): explicit
            `provider` field, PII sanitization gate, success keywords;
  * `JsEngine` — the module version (src/ai-engine.js): provider kind
            inferred from the endpoint by substring sniffing.

JavaScript strings are modelled as Lean `String`s (Unicode code points;
the sources only manipulate ASCII in the fragments under verification).
JavaScript values that may be `undefined`/`null`/a string are modelled by
the `JsStr` type.  The host collaborators (credential store, HTTP client,
draft object) are modelled as explicit function parameters, and every
observable effect of a call (error callback invocations, success callback
invocations, HTTP requests issued, credential lookups performed) is
recorded in a `CallTrace`.
-/

namespace DraftsAI

/-- Model of a JavaScript value that the engine treats as optional text:
`undefined`, `null`, or a string. -/
inductive JsStr where
  | undef : JsStr
  | null : JsStr
  | str : String → JsStr
deriving DecidableEq, Repr

/-- JavaScript truthiness restricted to `JsStr`: `undefined`, `null` and the
empty string are falsy, any other string is truthy. -/
def JsStr.truthy : JsStr → Bool
  | .str s => s ≠ ""
  | _ => false

/-- The JavaScript expression `a || b` on `JsStr` values. -/
def jsOr (a b : JsStr) : JsStr := if a.truthy then a else b

/-- The string content of a `JsStr`, with `""` for `undefined`/`null`.
`jsOr v (.str "")` always yields `.str (jsStrVal (jsOr v (.str "")))`. -/
def jsStrVal : JsStr → String
  | .str s => s
  | _ => ""

/-- JavaScript whitespace as trimmed by `String.prototype.trim` (ASCII
portion: space, tab, line feed, carriage return, form feed, vertical
tab). -/
def isJsWsChar (c : Char) : Bool :=
  c = ' ' || c = '\t' || c = '\n' || c = '\r' || c = Char.ofNat 12 || c = Char.ofNat 11

/-- JavaScript `s.trim()`: strip leading and trailing whitespace. -/
def jsTrim (s : String) : String :=
  String.mk (((s.data.dropWhile isJsWsChar).reverse.dropWhile isJsWsChar).reverse)

/-- JavaScript `s.split('\n')[0]`: the characters before the first line
feed (the whole string if there is none). -/
def firstLineOf (s : String) : String :=
  String.mk (s.data.takeWhile (fun c => c != '\n'))

/-- JavaScript `s.substring(0, n)` (here on code points). -/
def takeChars (n : Nat) (s : String) : String := String.mk (s.data.take n)

/-- `sub` occurs somewhere inside `s` (JavaScript `s.includes(sub)`). -/
def containsSubstr (s sub : String) : Bool := decide (sub.data <:+: s.data)

/-- JavaScript `Array.prototype.join(sep)`. -/
def joinWith (sep : String) : List String → String
  | [] => ""
  | [a] => a
  | a :: rest => a ++ sep ++ joinWith sep rest

/-- The `.replace(/\/$/, '')` idiom of the adapters: strip one trailing
slash. -/
def stripTrailingSlash (s : String) : String :=
  if s.data.getLast? = some '/' then String.mk s.data.dropLast else s

/-- ASCII lower-casing, modelling `String.prototype.toLowerCase` on the
ASCII endpoints the engine handles. -/
def toLowerStr (s : String) : String := String.mk (s.data.map Char.toLower)

/-! ## Prompt parameters and the prompt assembler -/

/-- The structured prompt parameters accepted by `callAI`
(`{ role, goal, steps, output, example, input }`); each field is an
optional free-text string. -/
structure PromptParams where
  role : JsStr
  goal : JsStr
  steps : JsStr
  output : JsStr
  exampleVal : JsStr
  input : JsStr
deriving DecidableEq, Repr

/-- A `PromptParams` with every field absent (the `{}` produced when the
caller omits the params argument). -/
def emptyParams : PromptParams := ⟨.undef, .undef, .undef, .undef, .undef, .undef⟩

/-- The fixed, ordered section list both `buildSystemPrompt` versions
iterate over: Role, Goal, Instructions (from `steps`), Output Format
(from `output`), Example. -/
def sectionList (p : PromptParams) : List (String × JsStr) :=
  [("Role", p.role), ("Goal", p.goal), ("Instructions", p.steps),
   ("Output Format", p.output), ("Example", p.exampleVal)]

/-- The JavaScript guard `value && value.trim()`: the section is included
iff the value is a string whose trim is non-empty. -/
def includeSection : JsStr → Bool
  | .str s => jsTrim s ≠ ""
  | _ => false

/-- `value.trim()` for an included section value. -/
def trimVal : JsStr → String
  | .str s => jsTrim s
  | _ => ""

/-- One rendered section: the heading line `# <Label>` followed by the
trimmed value. -/
def renderSection (label : String) (v : JsStr) : String :=
  "# " ++ label ++ "\n" ++ trimVal v

namespace P1

/-- The accumulator loop of `buildSystemPrompt` in the IIFE engine
(src/unnamed/part_001, lines 90-97): walk the sections, pushing a rendered
part for each included one. -/
def buildParts : List (String × JsStr) → List String
  | [] => []
  | (label, v) :: rest =>
    if includeSection v then renderSection label v :: buildParts rest
    else buildParts rest

/-- `buildSystemPrompt` of src/unnamed/part_001 (lines 82-99): collect the
included sections with a loop, then `parts.join('\n\n')`. -/
def buildSystemPrompt (p : PromptParams) : String :=
  joinWith "\n\n" (buildParts (sectionList p))

end P1

namespace JsEngine

/-- `buildSystemPrompt` of src/ai-engine.js (lines 93-106):
`sections.filter(...).map(...).join('\n\n')`. -/
def buildSystemPrompt (p : PromptParams) : String :=
  joinWith "\n\n"
    (((sectionList p).filter (fun lv => includeSection lv.2)).map
      (fun lv => renderSection lv.1 lv.2))

end JsEngine

/-- The prompt assembler exactly as the specification words it (spec 4.2):
take the five fixed labeled sections in fixed order, skip any section whose
value is absent or blank after trimming, render each included section as a
heading line followed by its trimmed value, and join the included sections
with exactly one blank line (`"\n\n"`). -/
def assembleSpec (p : PromptParams) : String :=
  joinWith "\n\n"
    (((sectionList p).filter (fun lv => includeSection lv.2)).map
      (fun lv => renderSection lv.1 lv.2))

/-! ## Regular-expression engine for the PII patterns

The five `PII_PATTERNS` literals are hand-compiled into a small regex AST
(`Re`) and run by a backtracking matcher with JavaScript semantics:
leftmost match, greedy quantifiers with backtracking, `\b` word
boundaries judged against ASCII word characters, and — crucially for
`String.prototype.replace` with the `g` flag — all matches judged on the
*original* string while replacements are spliced into the output. -/

/-- ASCII word character, JavaScript `\w` = `[A-Za-z0-9_]`. -/
def isWordChar (c : Char) : Bool := c.isAlphanum || c = '_'

/-- `\b` holds between two (optional) characters iff exactly one side is a
word character; an absent side (start/end of string) counts as non-word. -/
def isBoundary (prev next : Option Char) : Bool :=
  xor (match prev with | some c => isWordChar c | none => false)
      (match next with | some c => isWordChar c | none => false)

/-- Regex AST covering the constructs used by the five PII patterns. -/
inductive Re where
  | eps : Re
  | lit : Char → Re
  | cls : (Char → Bool) → Re
  | wb : Re
  | seq : Re → Re → Re
  | opt : Re → Re
  | clsRep : (Char → Bool) → Nat → Nat → Re
  | clsPlus : (Char → Bool) → Nat → Re

/-- Length of the maximal prefix of `cs` whose characters satisfy `p`. -/
def runLen (p : Char → Bool) : List Char → Nat
  | [] => 0
  | c :: cs => if p c then runLen p cs + 1 else 0

/-- The character preceding the position reached after consuming `n`
characters of `cs` (with `prev` preceding `cs` itself). -/
def prevAfter (prev : Option Char) (cs : List Char) : Nat → Option Char
  | 0 => prev
  | n + 1 => cs.get? n

/-- Greedy counted repetition of a character class: try consuming `j`
characters first, then backtrack down to `lo`. -/
def tryLens (lo : Nat) (prev : Option Char) (cs : List Char)
    (k : Option Char → List Char → Option (List Char)) :
    Nat → Option (List Char)
  | 0 => if lo = 0 then k prev cs else none
  | j + 1 =>
    if j + 1 < lo then none
    else
      match k (prevAfter prev cs (j + 1)) (cs.drop (j + 1)) with
      | some r => some r
      | none => tryLens lo prev cs k j

/-- Backtracking matcher in continuation-passing style.  `prev` is the
character preceding the current position (for `\b`); the continuation
receives the new preceding character and the remaining input, and the
first success in preference order is returned — exactly the JavaScript
backtracking order (alternatives left to right, quantifiers greedy). -/
def matchRe : Re → Option Char → List Char →
    (Option Char → List Char → Option (List Char)) → Option (List Char)
  | .eps, prev, cs, k => k prev cs
  | .lit c, _, [], _ => none
  | .lit c, _, c' :: rest, k => if c' = c then k (some c') rest else none
  | .cls p, _, [], _ => none
  | .cls p, _, c' :: rest, k => if p c' then k (some c') rest else none
  | .wb, prev, cs, k => if isBoundary prev cs.head? then k prev cs else none
  | .seq a b, prev, cs, k =>
    matchRe a prev cs (fun prev' cs' => matchRe b prev' cs' k)
  | .opt a, prev, cs, k =>
    match matchRe a prev cs k with
    | some r => some r
    | none => k prev cs
  | .clsRep p lo hi, prev, cs, k => tryLens lo prev cs k (min hi (runLen p cs))
  | .clsPlus p lo, prev, cs, k => tryLens lo prev cs k (runLen p cs)

/-- Length of the match of `r` anchored at the current position, if any
(the number of characters consumed by the first successful backtracking
path). -/
def findMatchAt (r : Re) (prev : Option Char) (cs : List Char) : Option Nat :=
  (matchRe r prev cs (fun _ rest => some rest)).map
    (fun rest => cs.length - rest.length)

/-- Worker for global replace.  Matching is judged on the original
characters (`prev` is always the preceding *original* character, exactly
as JavaScript `replace` with a `g` regex evaluates every match against
the original string), and `label` is spliced into the output for each
match.  `fuel` is an upper bound on the remaining length, so it never
runs out. -/
def gReplaceAux (r : Re) (label : List Char) :
    Nat → Option Char → List Char → List Char
  | 0, _, cs => cs
  | _ + 1, _, [] => []
  | fuel + 1, prev, c :: cs =>
    match findMatchAt r prev (c :: cs) with
    | some (n + 1) =>
      label ++ gReplaceAux r label fuel ((c :: cs).get? n) ((c :: cs).drop (n + 1))
    | _ => c :: gReplaceAux r label fuel (some c) cs

/-- JavaScript `text.replace(pattern, label)` for a `g`-flagged pattern. -/
def gReplace (r : Re) (label : String) (s : String) : String :=
  String.mk (gReplaceAux r label.data s.data.length none s.data)

/-- Concatenation of a list of regexes. -/
def Re.cat : List Re → Re
  | [] => .eps
  | [r] => r
  | r :: rs => .seq r (Re.cat rs)

/-! ### The five built-in PII patterns (src/unnamed/part_001, lines 127-133) -/

/-- `[\w._%+\-]` — the local part class of the email pattern. -/
def emailLocalCls (c : Char) : Bool :=
  isWordChar c || c = '.' || c = '%' || c = '+' || c = '-'

/-- `[\w.\-]` — the domain class of the email pattern. -/
def emailDomainCls (c : Char) : Bool := isWordChar c || c = '.' || c = '-'

/-- `[a-z]` under the `i` flag — ASCII letters of either case. -/
def tldCls (c : Char) : Bool := c.isAlpha

/-- `[\s\-.]` — the separator class of the phone pattern (`\s` modelled by
the ASCII whitespace characters). -/
def phoneSepCls (c : Char) : Bool :=
  c = ' ' || c = '\t' || c = '\n' || c = '\r' || c = '-' || c = '.'

/-- `[-\s]` / `[\s\-]` — dash-or-whitespace separator class. -/
def dashSpaceCls (c : Char) : Bool :=
  c = '-' || c = ' ' || c = '\t' || c = '\n' || c = '\r'

/-- `\d`. -/
def digitCls (c : Char) : Bool := c.isDigit

/-- `/\b[\w._%+\-]+@[\w.\-]+\.[a-z]{2,}\b/gi` -/
def emailRe : Re :=
  Re.cat [.wb, .clsPlus emailLocalCls 1, .lit '@', .clsPlus emailDomainCls 1,
          .lit '.', .clsPlus tldCls 2, .wb]

/-- `/\b(?:\+?1[\s\-.]?)?\(?\d{3}\)?[\s\-.]?\d{3}[\s\-.]?\d{4}\b/g` -/
def phoneRe : Re :=
  Re.cat [.wb,
          .opt (Re.cat [.opt (.lit '+'), .lit '1', .opt (.cls phoneSepCls)]),
          .opt (.lit '('), .clsRep digitCls 3 3, .opt (.lit ')'),
          .opt (.cls phoneSepCls), .clsRep digitCls 3 3,
          .opt (.cls phoneSepCls), .clsRep digitCls 4 4, .wb]

/-- `/\b\d{3}[-\s]\d{2}[-\s]\d{4}\b/g` -/
def ssnRe : Re :=
  Re.cat [.wb, .clsRep digitCls 3 3, .cls dashSpaceCls, .clsRep digitCls 2 2,
          .cls dashSpaceCls, .clsRep digitCls 4 4, .wb]

/-- One `\d{4}[\s\-]?` group of the card pattern. -/
def cardGroup : Re := .seq (.clsRep digitCls 4 4) (.opt (.cls dashSpaceCls))

/-- `/\b(?:\d{4}[\s\-]?){3}\d{4}\b/g` -/
def cardRe : Re :=
  Re.cat [.wb, cardGroup, cardGroup, cardGroup, .clsRep digitCls 4 4, .wb]

/-- One `\d{1,3}\.` group of the IP pattern. -/
def ipGroup : Re := .seq (.clsRep digitCls 1 3) (.lit '.')

/-- `/\b(?:\d{1,3}\.){3}\d{1,3}\b/g` -/
def ipRe : Re :=
  Re.cat [.wb, ipGroup, ipGroup, ipGroup, .clsRep digitCls 1 3, .wb]

/-- The built-in PII rule list, in source order (email, phone, SSN, card,
IP), each pattern paired with its labelled replacement. -/
def PII_PATTERNS : List (Re × String) :=
  [(emailRe, "[EMAIL]"), (phoneRe, "[PHONE]"), (ssnRe, "[SSN]"),
   (cardRe, "[CARD]"), (ipRe, "[IP]")]

/-- `sanitizeText` (src/unnamed/part_001, lines 135-141) on string input:
apply every rule of the list in order, each as a global replace. -/
def sanitizeText (s : String) : String :=
  PII_PATTERNS.foldl (fun t rl => gReplace rl.1 rl.2 t) s

/-- `sanitizeText` on a possibly-non-string value: the
`typeof text !== 'string'` guard returns non-strings unchanged. -/
def sanitizeJs : JsStr → JsStr
  | .str s => .str (sanitizeText s)
  | v => v

/-! ## JSON values, `JSON.parse`, and JavaScript property access

The adapters decode provider responses with `JSON.parse` followed by a
chain of property accesses inside a `try`/`catch`.  JSON values are
modelled structurally (numbers keep their raw source text, which the
engine never inspects), `JSON.parse` by a strict recursive-descent
parser, and property access by `jsAccess`, which throws (models the
`TypeError`) on `undefined`/`null` bases and yields `undefined` for
missing members. -/

/-- A decoded JSON value. -/
inductive Json where
  | null : Json
  | bool : Bool → Json
  | num : String → Json
  | str : String → Json
  | arr : List Json → Json
  | obj : List (String × Json) → Json
deriving Repr, Inhabited

/-- JSON insignificant whitespace. -/
def isJsonWs (c : Char) : Bool := c = ' ' || c = '\t' || c = '\n' || c = '\r'

/-- Skip insignificant whitespace. -/
def skipWs : List Char → List Char
  | [] => []
  | c :: cs => if isJsonWs c then skipWs cs else c :: cs

/-- Expect the exact characters `lit` as a prefix. -/
def expectLit : List Char → List Char → Option (List Char)
  | [], cs => some cs
  | _, [] => none
  | l :: ls, c :: cs => if c = l then expectLit ls cs else none

/-- Recognize a hexadecimal digit. -/
def isHexDigit (c : Char) : Bool :=
  c.isDigit || ('a' ≤ c && c ≤ 'f') || ('A' ≤ c && c ≤ 'F')

/-- Numeric value of a hexadecimal digit (callers check `isHexDigit`). -/
def hexDigitVal (c : Char) : Nat :=
  if c.isDigit then c.toNat - 48
  else if c ≤ 'F' then c.toNat - 55
  else c.toNat - 87

/-- The simple escape table of JSON strings. -/
def escTable : List (Char × Char) :=
  [('"', '"'), ('\\', '\\'), ('/', '/'), ('b', Char.ofNat 8),
   ('f', Char.ofNat 12), ('n', '\n'), ('r', '\r'), ('t', '\t')]

/-- Parse the body of a JSON string literal (after the opening quote),
returning the decoded characters and the input after the closing quote.
Control characters are rejected, the standard escapes and `\uXXXX` are
decoded (surrogate pairing is not modelled). -/
def parseStrBody : Nat → List Char → Option (List Char × List Char)
  | 0, _ => none
  | _ + 1, [] => none
  | fuel + 1, c :: cs =>
    if c = '"' then some ([], cs)
    else if c.toNat < 32 then none
    else if c = '\\' then
      match cs with
      | [] => none
      | 'u' :: h1 :: h2 :: h3 :: h4 :: cs'' =>
        if isHexDigit h1 && isHexDigit h2 && isHexDigit h3 && isHexDigit h4 then
          let code := ((hexDigitVal h1 * 16 + hexDigitVal h2) * 16 +
                        hexDigitVal h3) * 16 + hexDigitVal h4
          (parseStrBody fuel cs'').map
            (fun (pr : List Char × List Char) => (Char.ofNat code :: pr.1, pr.2))
        else none
      | e :: cs' =>
        match escTable.lookup e with
        | some d =>
          (parseStrBody fuel cs').map
            (fun (pr : List Char × List Char) => (d :: pr.1, pr.2))
        | none => none
    else (parseStrBody fuel cs).map
      (fun (pr : List Char × List Char) => (c :: pr.1, pr.2))

/-- Parse a JSON number (value kept as raw text). -/
def parseNum (cs : List Char) : Option (String × List Char) :=
  let afterMinus := fun (l : List Char) =>
    match l with
    | c :: rest => if c = '-' then rest else l
    | [] => l
  let body := afterMinus cs
  let intLen : Nat :=
    match body with
    | c :: rest =>
      if c = '0' then 1
      else if c.isDigit then runLen Char.isDigit rest + 1
      else 0
    | [] => 0
  if intLen = 0 then none
  else
    let afterInt := body.drop intLen
    let fracLen : Nat :=
      match afterInt with
      | c :: rest =>
        if c = '.' && runLen Char.isDigit rest > 0 then runLen Char.isDigit rest + 1
        else 0
      | [] => 0
    let afterFrac := afterInt.drop fracLen
    let expLen : Nat :=
      match afterFrac with
      | c :: rest =>
        if c = 'e' || c = 'E' then
          match rest with
          | s :: rest' =>
            if s = '+' || s = '-' then
              if runLen Char.isDigit rest' > 0 then runLen Char.isDigit rest' + 2 else 0
            else if runLen Char.isDigit rest > 0 then runLen Char.isDigit rest + 1
            else 0
          | [] => 0
        else 0
      | [] => 0
    let total := cs.length - body.length + intLen + fracLen + expLen
    some (String.mk (cs.take total), cs.drop total)

mutual

/-- Parse one JSON value (recursive-descent, `fuel` bounds the recursion). -/
def parseValue : Nat → List Char → Option (Json × List Char)
  | 0, _ => none
  | fuel + 1, cs =>
    match skipWs cs with
    | [] => none
    | c :: rest =>
      if c = '{' then parseMembers fuel rest true
      else if c = '[' then parseElems fuel rest true
      else if c = '"' then
        (parseStrBody (fuel + 1) rest).map
          (fun (pr : List Char × List Char) => (Json.str (String.mk pr.1), pr.2))
      else if c = 't' then (expectLit ['r', 'u', 'e'] rest).map (fun r => (Json.bool true, r))
      else if c = 'f' then (expectLit ['a', 'l', 's', 'e'] rest).map (fun r => (Json.bool false, r))
      else if c = 'n' then (expectLit ['u', 'l', 'l'] rest).map (fun r => (Json.null, r))
      else (parseNum (c :: rest)).map (fun pr => (Json.num pr.1, pr.2))

/-- Parse object members after `{` (`first` marks the position right after
the brace, where `}` ends the object). -/
def parseMembers : Nat → List Char → Bool → Option (Json × List Char)
  | 0, _, _ => none
  | fuel + 1, cs, first =>
    match skipWs cs with
    | [] => none
    | c :: rest =>
      if c = '}' && first then some (Json.obj [], rest)
      else
        match (if c = '"' then parseStrBody (fuel + 1) rest else none) with
        | none => none
        | some (key, afterKey) =>
          match skipWs afterKey with
          | ':' :: afterColon =>
            match parseValue fuel afterColon with
            | none => none
            | some (v, afterVal) =>
              match skipWs afterVal with
              | ',' :: afterComma =>
                match parseMembers fuel afterComma false with
                | some (Json.obj fields, r) =>
                  some (Json.obj ((String.mk key, v) :: fields), r)
                | _ => none
              | '}' :: r => some (Json.obj [(String.mk key, v)], r)
              | _ => none
          | _ => none

/-- Parse array elements after `[`. -/
def parseElems : Nat → List Char → Bool → Option (Json × List Char)
  | 0, _, _ => none
  | fuel + 1, cs, first =>
    match skipWs cs with
    | [] => none
    | c :: rest =>
      if c = ']' && first then some (Json.arr [], rest)
      else
        match parseValue fuel (c :: rest) with
        | none => none
        | some (v, afterVal) =>
          match skipWs afterVal with
          | ',' :: afterComma =>
            match parseElems fuel afterComma false with
            | some (Json.arr elems, r) => some (Json.arr (v :: elems), r)
            | _ => none
          | ']' :: r => some (Json.arr [v], r)
          | _ => none

end

/-- `JSON.parse`: parse one value and require only whitespace after it;
`none` models the thrown `SyntaxError`. -/
def parseJson (s : String) : Option Json :=
  match parseValue (2 * s.length + 2) s.data with
  | some (j, rest) => if skipWs rest = [] then some j else none
  | none => none

/-- A property key: a named field or a numeric index. -/
inductive JKey where
  | f : String → JKey
  | i : Nat → JKey

/-- Member lookup on a JSON value, JavaScript style: objects by field
name, arrays by index, strings by character index; a missing member or a
primitive base yields `undefined` (`none`). -/
def jsMember : Json → JKey → Option Json
  | .obj fields, .f name => fields.lookup name
  | .obj fields, .i n => fields.lookup (toString n)
  | .arr xs, .i n => xs.get? n
  | .str s, .i n => (s.data.get? n).map (fun c => Json.str (String.mk [c]))
  | _, _ => none

/-- One JavaScript property access `base[key]`: reading a property of
`undefined` or `null` throws a `TypeError` (`Except.error`), otherwise
the member (possibly `undefined`) is produced. -/
def jsAccess (base : Option Json) (k : JKey) : Except Unit (Option Json) :=
  match base with
  | none => .error ()
  | some .null => .error ()
  | some j => .ok (jsMember j k)

/-- `result.choices[0].message.content` — the decode chain of the
AlterHQ/OpenAI-style chat adapters. -/
def decodeChat (j : Json) : Except Unit (Option Json) := do
  let v1 ← jsAccess (some j) (.f "choices")
  let v2 ← jsAccess v1 (.i 0)
  let v3 ← jsAccess v2 (.f "message")
  jsAccess v3 (.f "content")

/-- `result.content[0].text` — the decode chain of the Anthropic adapter. -/
def decodeAnthropic (j : Json) : Except Unit (Option Json) := do
  let v1 ← jsAccess (some j) (.f "content")
  let v2 ← jsAccess v1 (.i 0)
  jsAccess v2 (.f "text")

/-- `result.message.content` — the decode chain of the Ollama adapter. -/
def decodeOllama (j : Json) : Except Unit (Option Json) := do
  let v1 ← jsAccess (some j) (.f "message")
  jsAccess v1 (.f "content")

/-! ## HTTP collaborator, provider configuration and call traces -/

/-- A provider configuration record (`{ provider, endpoint, model }`);
each field is optional — registry entries of src/ai-engine.js carry no
`provider` field. -/
structure ProviderConfig where
  provider : Option String
  endpoint : Option String
  model : Option String
deriving DecidableEq, Repr

/-- What the HTTP collaborator returns for a request
(`{success, statusCode, responseText}`). -/
structure HttpResp where
  success : Bool
  statusCode : Int
  responseText : String
deriving DecidableEq, Repr

/-- One outgoing POST request, with its JSON body flattened into the
fields the four adapters populate (`stream` and `max_tokens` are absent
from the bodies that do not carry them). -/
structure HttpReq where
  url : String
  headers : List (String × String)
  bodyModel : String
  bodySystem : String
  bodyUser : JsStr
  bodyStream : Option Bool
  bodyMaxTokens : Option Nat
deriving DecidableEq, Repr

/-- The host collaborators: the credential store
(`providerKey ↦ api key`, `none` models a declined/absent credential) and
the HTTP client. -/
structure Env where
  cred : String → Option String
  http : HttpReq → HttpResp

/-- The observable effects of one engine call: every error-callback
message, every success-callback first argument (the decoded text as a
JavaScript value — `none` is `undefined`), every HTTP request issued and
every credential-store lookup, each in order. -/
structure CallTrace where
  errors : List String
  successes : List (Option Json)
  requests : List HttpReq
  credReqs : List String
deriving Repr

/-- JavaScript `providerConfig.endpoint || default` and friends: an
absent or empty field falls back to the default. -/
def jsOrS (v : Option String) (d : String) : String :=
  match v with
  | some s => if s = "" then d else s
  | none => d

/-- The key is usable iff `getApiKey` returned a truthy value (the
adapters guard with `if (!apiKey)`). -/
def keyUsable : Option String → Bool
  | some s => s ≠ ""
  | none => false

/-- Stand-in for the rendering of the JavaScript `SyntaxError` thrown by
`JSON.parse` on malformed input. -/
def jsonSyntaxErr : String := "SyntaxError: Unexpected token in JSON"

/-- Stand-in for the rendering of the JavaScript `TypeError` thrown by a
property access on `undefined` or `null`. -/
def jsTypeErr : String := "TypeError: Cannot read properties of undefined"

/-- The uniform response handling every adapter ends with: on transport
failure signal `"<label> API error <status>: <body>"`; on transport
success run `JSON.parse` and the provider's field-path extraction inside
`try`/`catch`, reporting a decode failure as
`"<label>: failed to parse response — <error>"` and otherwise invoking the
success callback with the extracted value. -/
def finishCall (label : String) (credList : List String) (req : HttpReq)
    (resp : HttpResp) (dec : Json → Except Unit (Option Json)) : CallTrace :=
  if resp.success then
    match parseJson resp.responseText with
    | none =>
      ⟨[label ++ ": failed to parse response — " ++ jsonSyntaxErr], [], [req], credList⟩
    | some j =>
      match dec j with
      | .error _ =>
        ⟨[label ++ ": failed to parse response — " ++ jsTypeErr], [], [req], credList⟩
      | .ok v => ⟨[], [v], [req], credList⟩
  else
    ⟨[label ++ " API error " ++ toString resp.statusCode ++ ": " ++ resp.responseText],
     [], [req], credList⟩

/-- The request the chat adapters build: chat-style JSON body with the
assembled system prompt and `params.input || ''` as the user content,
POSTed to `<base>/chat/completions` with a Bearer token. -/
def mkChatReq (defEndpoint defModel key : String) (cfg : ProviderConfig)
    (p : PromptParams) : HttpReq :=
  { url := stripTrailingSlash (jsOrS cfg.endpoint defEndpoint) ++ "/chat/completions"
    headers := [("Content-Type", "application/json"),
                ("Authorization", "Bearer " ++ key)]
    bodyModel := jsOrS cfg.model defModel
    bodySystem := P1.buildSystemPrompt p
    bodyUser := jsOr p.input (.str "")
    bodyStream := none
    bodyMaxTokens := none }

/-- The request the Anthropic adapter builds: top-level `system` field,
`max_tokens: 4096`, `x-api-key` and `anthropic-version` headers, POSTed
to `<base>/v1/messages`. -/
def mkAnthropicReq (defEndpoint defModel key : String) (cfg : ProviderConfig)
    (p : PromptParams) : HttpReq :=
  { url := stripTrailingSlash (jsOrS cfg.endpoint defEndpoint) ++ "/v1/messages"
    headers := [("Content-Type", "application/json"),
                ("x-api-key", key),
                ("anthropic-version", "2023-06-01")]
    bodyModel := jsOrS cfg.model defModel
    bodySystem := P1.buildSystemPrompt p
    bodyUser := jsOr p.input (.str "")
    bodyStream := none
    bodyMaxTokens := some 4096 }

/-- The request the Ollama adapter builds: chat-style body with
`stream: false` and no auth header, POSTed to `<base>/api/chat`. -/
def mkOllamaReq (defEndpoint defModel : String) (cfg : ProviderConfig)
    (p : PromptParams) : HttpReq :=
  { url := stripTrailingSlash (jsOrS cfg.endpoint defEndpoint) ++ "/api/chat"
    headers := [("Content-Type", "application/json")]
    bodyModel := jsOrS cfg.model defModel
    bodySystem := P1.buildSystemPrompt p
    bodyUser := jsOr p.input (.str "")
    bodyStream := some false
    bodyMaxTokens := none }

/-- Shared shape of the two OpenAI-style chat adapters (`callAlter`,
`callOpenAI`): resolve the credential, short-circuit on a missing key,
POST `{model, messages:[{system},{user}]}` to `<base>/chat/completions`
with a Bearer token, then decode `choices[0].message.content` inside
`try`/`catch`. -/
def mkChatAdapter (label credKey defEndpoint defModel : String)
    (cfg : ProviderConfig) (p : PromptParams) (env : Env) : CallTrace :=
  let apiKey := env.cred credKey
  if !keyUsable apiKey then
    ⟨[label ++ ": failed to retrieve API key."], [], [], [credKey]⟩
  else
    let req := mkChatReq defEndpoint defModel (apiKey.getD "") cfg p
    finishCall label [credKey] req (env.http req) decodeChat

/-- Shared shape of the Anthropic adapter: `x-api-key` header plus fixed
`anthropic-version`, top-level `system` field, `max_tokens: 4096`, POST
to `<base>/v1/messages`, decode `content[0].text`. -/
def mkAnthropicAdapter (label credKey defEndpoint defModel : String)
    (cfg : ProviderConfig) (p : PromptParams) (env : Env) : CallTrace :=
  let apiKey := env.cred credKey
  if !keyUsable apiKey then
    ⟨[label ++ ": failed to retrieve API key."], [], [], [credKey]⟩
  else
    let req := mkAnthropicReq defEndpoint defModel (apiKey.getD "") cfg p
    finishCall label [credKey] req (env.http req) decodeAnthropic

/-- The Ollama adapter shape: no credential at all, `stream: false`, POST
to `<base>/api/chat`, decode `message.content`. -/
def mkOllamaAdapter (label defEndpoint defModel : String)
    (cfg : ProviderConfig) (p : PromptParams) (env : Env) : CallTrace :=
  let req := mkOllamaReq defEndpoint defModel cfg p
  finishCall label [] req (env.http req) decodeOllama

namespace P1

/-- `callAlter` of src/unnamed/part_001 (lines 147-171). -/
def callAlter : ProviderConfig → PromptParams → Env → CallTrace :=
  mkChatAdapter "AlterHQ" "AlterHQ" "https://alterhq.com/api/v1" "OpenAI#gpt-4o"

/-- `callOpenAI` of src/unnamed/part_001 (lines 177-201). -/
def callOpenAI : ProviderConfig → PromptParams → Env → CallTrace :=
  mkChatAdapter "OpenAI" "OpenAI" "https://api.openai.com/v1" "gpt-4o"

/-- `callAnthropic` of src/unnamed/part_001 (lines 207-231). -/
def callAnthropic : ProviderConfig → PromptParams → Env → CallTrace :=
  mkAnthropicAdapter "Anthropic" "Anthropic" "https://api.anthropic.com" "claude-opus-4-6"

/-- `callOllama` of src/unnamed/part_001 (lines 237-258). -/
def callOllama : ProviderConfig → PromptParams → Env → CallTrace :=
  mkOllamaAdapter "Ollama" "http://localhost:11434" "llama3"

/-- The `MODELS` registry of src/unnamed/part_001 (lines 44-76), in
literal order (`Object.keys` enumerates string keys in insertion order). -/
def MODELS : List (String × ProviderConfig) :=
  [("alter-openai-4o", ⟨some "alter", some "https://alterhq.com/api/v1", some "OpenAI#gpt-4o"⟩),
   ("alter-openai-4o-mini", ⟨some "alter", some "https://alterhq.com/api/v1", some "OpenAI#gpt-4o-mini"⟩),
   ("alter-openai-o1", ⟨some "alter", some "https://alterhq.com/api/v1", some "OpenAI#o1"⟩),
   ("alter-openai-o3", ⟨some "alter", some "https://alterhq.com/api/v1", some "OpenAI#o3"⟩),
   ("alter-openai-o3-mini", ⟨some "alter", some "https://alterhq.com/api/v1", some "OpenAI#o3-mini"⟩),
   ("alter-claude-opus", ⟨some "alter", some "https://alterhq.com/api/v1", some "Claude#Claude-3-Opus-20240229"⟩),
   ("alter-claude-sonnet", ⟨some "alter", some "https://alterhq.com/api/v1", some "Claude#Claude-3-5-Sonnet-20240620"⟩),
   ("alter-claude-37-sonnet", ⟨some "alter", some "https://alterhq.com/api/v1", some "Claude#Claude-3-7-Sonnet-20250219"⟩),
   ("alter-claude-haiku", ⟨some "alter", some "https://alterhq.com/api/v1", some "Claude#Claude-3-5-Haiku-20241022"⟩),
   ("alter-gemini-pro", ⟨some "alter", some "https://alterhq.com/api/v1", some "Gemini#gemini-1.5-pro"⟩),
   ("alter-gemini-15-flash", ⟨some "alter", some "https://alterhq.com/api/v1", some "Gemini#gemini-1.5-flash"⟩),
   ("alter-gemini-fast", ⟨some "alter", some "https://alterhq.com/api/v1", some "Gemini#gemini-2.0-flash"⟩),
   ("alter-gemini-25-pro", ⟨some "alter", some "https://alterhq.com/api/v1", some "Gemini#gemini-2.5-pro"⟩),
   ("alter-mistral-large", ⟨some "alter", some "https://alterhq.com/api/v1", some "Mistral#mistral-large-latest"⟩),
   ("alter-mistral-small", ⟨some "alter", some "https://alterhq.com/api/v1", some "Mistral#mistral-small-latest"⟩),
   ("alter-codestral", ⟨some "alter", some "https://alterhq.com/api/v1", some "Mistral#codestral-latest"⟩),
   ("alter-pixtral", ⟨some "alter", some "https://alterhq.com/api/v1", some "Mistral#pixtral-large-latest"⟩),
   ("anthropic-opus", ⟨some "anthropic", some "https://api.anthropic.com", some "claude-opus-4-6"⟩),
   ("anthropic-sonnet", ⟨some "anthropic", some "https://api.anthropic.com", some "claude-sonnet-4-6"⟩),
   ("anthropic-haiku", ⟨some "anthropic", some "https://api.anthropic.com", some "claude-haiku-4-5-20251001"⟩),
   ("openai-5-mini", ⟨some "openai", some "https://api.openai.com/v1", some "gpt-4o"⟩),
   ("openai-5-nano", ⟨some "openai", some "https://api.openai.com/v1", some "gpt-4o-mini"⟩),
   ("ollama-llama3", ⟨some "ollama", some "http://localhost:11434", some "llama3"⟩),
   ("ollama-mistral", ⟨some "ollama", some "http://localhost:11434", some "mistral"⟩)]

/-- `Object.keys(MODELS)`. -/
def modelKeys : List String := MODELS.map Prod.fst

/-- Registry lookup `MODELS[model]`. -/
def lookupModel (s : String) : Option ProviderConfig :=
  (MODELS.find? (fun kv => kv.1 = s)).map Prod.snd

/-- The sanitization gate of `engine.callAI` (src/unnamed/part_001, lines
360-366): when the process-wide flag is set and the provider is not
`ollama`, rebuild the params with `input` scrubbed and every other field
copied through. -/
def applyGate (sanitizePII : Bool) (provider : String) (p : PromptParams) :
    PromptParams :=
  if sanitizePII && provider != "ollama" then
    { input := sanitizeJs (jsOr p.input (.str ""))
      role := p.role, goal := p.goal, steps := p.steps
      output := p.output, exampleVal := p.exampleVal }
  else p

/-- The `model` argument of `engine.callAI`: a shorthand string or a
custom config object. -/
inductive ModelArg where
  | sh : String → ModelArg
  | cfg : ProviderConfig → ModelArg

/-- The `params` argument of `engine.callAI`: a plain string, a params
object, or anything else (absent, `null`, a number, ...). -/
inductive ParamsArg where
  | pstr : String → ParamsArg
  | pobj : PromptParams → ParamsArg
  | pother : ParamsArg

/-- The `onSuccess` argument of `engine.callAI`: a keyword string, a
function, or anything else. -/
inductive SuccessArg where
  | kw : String → SuccessArg
  | fn : SuccessArg
  | other : SuccessArg

/-- The five built-in success-handler keywords, in source order. -/
def SUCCESS_KEYWORDS : List String := ["new", "replace", "append", "prepend", "tokens"]

/-- The `onSuccess` argument passes keyword resolution (lines 331-340):
either it is not a string, or it is one of the five keywords. -/
def successResolves : SuccessArg → Bool
  | .kw k => SUCCESS_KEYWORDS.contains k
  | _ => true

/-- Argument normalization of `engine.callAI` (lines 317-321): a plain
string becomes `{ input: string }`, a non-object becomes `{}`. -/
def normalizeParams : ParamsArg → PromptParams
  | .pstr s => ⟨.undef, .undef, .undef, .undef, .undef, .str s⟩
  | .pobj p => p
  | .pother => emptyParams

/-- The provider `switch` of `engine.callAI` (lines 355-375): reject a
config without a truthy `provider`, apply the sanitization gate, then
route to exactly one adapter; an unrecognised provider is an error with
no network attempt. -/
def engineRoute (sanitizePII : Bool) (cfg : ProviderConfig)
    (p : PromptParams) (env : Env) : CallTrace :=
  match cfg.provider with
  | none =>
    ⟨["ai-engine: config must include a provider field (alter, openai, anthropic, or ollama)."],
     [], [], []⟩
  | some prov =>
    if prov = "" then
      ⟨["ai-engine: config must include a provider field (alter, openai, anthropic, or ollama)."],
       [], [], []⟩
    else
      let p := applyGate sanitizePII prov p
      match prov with
      | "alter" => callAlter cfg p env
      | "openai" => callOpenAI cfg p env
      | "anthropic" => callAnthropic cfg p env
      | "ollama" => callOllama cfg p env
      | _ =>
        ⟨["ai-engine: unrecognised provider \"" ++ prov ++
          "\". Use alter, openai, anthropic, or ollama."], [], [], []⟩

/-- `engine.callAI` of src/unnamed/part_001 (lines 315-376): normalize
the params, resolve the success keyword (an unknown keyword aborts),
resolve the model shorthand (an unknown shorthand aborts with the full
key list), then route. -/
def engineCallAI (sanitizePII : Bool) (model : ModelArg) (params : ParamsArg)
    (onSuccess : SuccessArg) (env : Env) : CallTrace :=
  let p := normalizeParams params
  match onSuccess with
  | .kw k =>
    if SUCCESS_KEYWORDS.contains k then
      match model with
      | .sh s =>
        match lookupModel s with
        | none =>
          ⟨["ai-engine: unknown model \"" ++ s ++ "\". Available: " ++
            joinWith ", " modelKeys], [], [], []⟩
        | some cfg => engineRoute sanitizePII cfg p env
      | .cfg cfg => engineRoute sanitizePII cfg p env
    else
      ⟨["ai-engine: unknown success keyword \"" ++ k ++
        "\". Use: new, replace, append, prepend, or tokens."], [], [], []⟩
  | _ =>
    match model with
    | .sh s =>
      match lookupModel s with
      | none =>
        ⟨["ai-engine: unknown model \"" ++ s ++ "\". Available: " ++
          joinWith ", " modelKeys], [], [], []⟩
      | some cfg => engineRoute sanitizePII cfg p env
    | .cfg cfg => engineRoute sanitizePII cfg p env

end P1

namespace JsEngine

/-- `callAlter` of src/ai-engine.js (lines 144-179): same chat shape, but
the credential key is `'AlterHQ API'` and the default endpoint has no
`/v1`. -/
def callAlter : ProviderConfig → PromptParams → Env → CallTrace :=
  mkChatAdapter "AlterHQ" "AlterHQ API" "https://alterhq.com/api" "OpenAI#gpt-4o"

/-- `callOpenAI` of src/ai-engine.js (lines 185-220). -/
def callOpenAI : ProviderConfig → PromptParams → Env → CallTrace :=
  mkChatAdapter "OpenAI" "openai" "https://api.openai.com/v1" "gpt-4o"

/-- `callAnthropic` of src/ai-engine.js (lines 226-263). -/
def callAnthropic : ProviderConfig → PromptParams → Env → CallTrace :=
  mkAnthropicAdapter "Anthropic" "anthropic" "https://api.anthropic.com" "claude-opus-4-6"

/-- `callOllama` of src/ai-engine.js (lines 270-300). -/
def callOllama : ProviderConfig → PromptParams → Env → CallTrace :=
  mkOllamaAdapter "Ollama" "http://localhost:11434" "llama3"

/-- The `MODELS` registry of src/ai-engine.js (lines 33-69): same keys,
no `provider` field, AlterHQ endpoints without `/v1`. -/
def MODELS : List (String × ProviderConfig) :=
  [("alter-openai-4o", ⟨none, some "https://alterhq.com/api", some "OpenAI#gpt-4o"⟩),
   ("alter-openai-4o-mini", ⟨none, some "https://alterhq.com/api", some "OpenAI#gpt-4o-mini"⟩),
   ("alter-openai-o1", ⟨none, some "https://alterhq.com/api", some "OpenAI#o1"⟩),
   ("alter-openai-o3", ⟨none, some "https://alterhq.com/api", some "OpenAI#o3"⟩),
   ("alter-openai-o3-mini", ⟨none, some "https://alterhq.com/api", some "OpenAI#o3-mini"⟩),
   ("alter-claude-opus", ⟨none, some "https://alterhq.com/api", some "Claude#Claude-3-Opus-20240229"⟩),
   ("alter-claude-sonnet", ⟨none, some "https://alterhq.com/api", some "Claude#Claude-3-5-Sonnet-20240620"⟩),
   ("alter-claude-37-sonnet", ⟨none, some "https://alterhq.com/api", some "Claude#Claude-3-7-Sonnet-20250219"⟩),
   ("alter-claude-haiku", ⟨none, some "https://alterhq.com/api", some "Claude#Claude-3-5-Haiku-20241022"⟩),
   ("alter-gemini-pro", ⟨none, some "https://alterhq.com/api", some "Gemini#gemini-1.5-pro"⟩),
   ("alter-gemini-15-flash", ⟨none, some "https://alterhq.com/api", some "Gemini#gemini-1.5-flash"⟩),
   ("alter-gemini-fast", ⟨none, some "https://alterhq.com/api", some "Gemini#gemini-2.0-flash"⟩),
   ("alter-gemini-25-pro", ⟨none, some "https://alterhq.com/api", some "Gemini#gemini-2.5-pro"⟩),
   ("alter-mistral-large", ⟨none, some "https://alterhq.com/api", some "Mistral#mistral-large-latest"⟩),
   ("alter-mistral-small", ⟨none, some "https://alterhq.com/api", some "Mistral#mistral-small-latest"⟩),
   ("alter-codestral", ⟨none, some "https://alterhq.com/api", some "Mistral#codestral-latest"⟩),
   ("alter-pixtral", ⟨none, some "https://alterhq.com/api", some "Mistral#pixtral-large-latest"⟩),
   ("anthropic-opus", ⟨none, some "https://api.anthropic.com", some "claude-opus-4-6"⟩),
   ("anthropic-sonnet", ⟨none, some "https://api.anthropic.com", some "claude-sonnet-4-6"⟩),
   ("anthropic-haiku", ⟨none, some "https://api.anthropic.com", some "claude-haiku-4-5-20251001"⟩),
   ("openai-5-mini", ⟨none, some "https://api.openai.com/v1", some "gpt-4o"⟩),
   ("openai-5-nano", ⟨none, some "https://api.openai.com/v1", some "gpt-4o-mini"⟩),
   ("ollama-llama3", ⟨none, some "http://localhost:11434", some "llama3"⟩),
   ("ollama-mistral", ⟨none, some "http://localhost:11434", some "mistral"⟩)]

/-- `Object.keys(MODELS)` for the module version. -/
def modelKeys : List String := MODELS.map Prod.fst

/-- Registry lookup. -/
def lookupModel (s : String) : Option ProviderConfig :=
  (MODELS.find? (fun kv => kv.1 = s)).map Prod.snd

/-- `detectProvider` of src/ai-engine.js (lines 78-87): endpoint
substring sniffing over the lower-cased endpoint, falling back to the
OpenAI-compatible protocol for any other non-empty endpoint. -/
def detectProvider (endpoint : String) : String :=
  if endpoint = "" then "unknown"
  else
    let url := toLowerStr endpoint
    if containsSubstr url "alterhq.com" then "alter"
    else if containsSubstr url "openai.com" then "openai"
    else if containsSubstr url "anthropic.com" then "anthropic"
    else if containsSubstr url "localhost" || containsSubstr url "127.0.0.1" ||
            containsSubstr url "ollama" then "ollama"
    else "openai"

/-- `aiEngine.callAI` of src/ai-engine.js (lines 321-358): resolve the
shorthand or use the config object directly, reject a config without a
truthy endpoint before any I/O, sniff the provider kind from the
endpoint, and route. -/
def callAI (model : P1.ModelArg) (p : PromptParams) (env : Env) : CallTrace :=
  let withCfg := fun (cfg : ProviderConfig) =>
    match cfg.endpoint with
    | none =>
      ⟨["ai-engine: a valid model shorthand or config object with an endpoint is required."],
       [], [], []⟩
    | some ep =>
      if ep = "" then
        ⟨["ai-engine: a valid model shorthand or config object with an endpoint is required."],
         [], [], []⟩
      else
        match detectProvider ep with
        | "alter" => callAlter cfg p env
        | "openai" => callOpenAI cfg p env
        | "anthropic" => callAnthropic cfg p env
        | "ollama" => callOllama cfg p env
        | _ =>
          ⟨["ai-engine: unrecognised provider endpoint \"" ++ ep ++ "\"."], [], [], []⟩
  match model with
  | .sh s =>
    match lookupModel s with
    | none =>
      ⟨["ai-engine: unknown model \"" ++ s ++ "\". Available: " ++
        joinWith ", " modelKeys], [], [], []⟩
    | some cfg => withCfg cfg
  | .cfg cfg => withCfg cfg

end JsEngine

/-! ## The success handlers and the draft collaborator -/

/-- The draft object of the host: its content, its template tags (most
recent setting first) and a persist counter for `update()` calls. -/
structure DraftState where
  content : String
  tags : List (String × String)
  updates : Nat
deriving DecidableEq, Repr

/-- `draft.setTemplateTag(name, value)`: later settings shadow earlier
ones. -/
def setTag (d : DraftState) (name value : String) : DraftState :=
  { d with tags := (name, value) :: d.tags }

/-- Read a template tag. -/
def getTag (d : DraftState) (name : String) : Option String :=
  d.tags.lookup name

/-- `draft.update()`. -/
def updateDraft (d : DraftState) : DraftState :=
  { d with updates := d.updates + 1 }

/-- The `'tokens'` success handler (src/unnamed/part_001, lines 282-288):
take the first line of the response, trim it, truncate it to 80
characters if longer, store it in `ai_title`, store the full response in
`ai_content`, and persist. -/
def tokensHandler (responseText : String) (d : DraftState) : DraftState :=
  let firstLine := jsTrim (firstLineOf responseText)
  let title := if firstLine.length > 80 then takeChars 80 firstLine else firstLine
  updateDraft (setTag (setTag d "ai_title" title) "ai_content" responseText)

/-- The `'replace'` success handler (lines 270-273). -/
def replaceHandler (responseText : String) (d : DraftState) : DraftState :=
  updateDraft { d with content := responseText }

/-- The `'append'` success handler (lines 274-277). -/
def appendHandler (responseText : String) (d : DraftState) : DraftState :=
  updateDraft { d with content := d.content ++ "\n" ++ responseText }

/-- The `'prepend'` success handler (lines 278-281). -/
def prependHandler (responseText : String) (d : DraftState) : DraftState :=
  updateDraft { d with content := responseText ++ "\n" ++ d.content }

/-- The loop formulation of the parts array coincides with
filter-then-map. -/
theorem buildParts_eq_filterMap (l : List (String × JsStr)) :
    P1.buildParts l =
      (l.filter (fun lv => includeSection lv.2)).map
        (fun lv => renderSection lv.1 lv.2) := by
  induction l with
  | nil => rfl
  | cons hd tl ih =>
    obtain ⟨label, v⟩ := hd
    by_cases h : includeSection v
    · simp [P1.buildParts, List.filter, h, ih]
    · simp [P1.buildParts, List.filter, h, ih]

/-! ## Declarative path semantics for the regex engine

To reason about `sanitizeText` beyond concrete inputs (claim C3 asserts
idempotence for *every* string), the backtracking matcher is related to a
declarative path relation: `PathR r prev cs n` holds iff `r` can match a
prefix of `cs` of length `n` when the character preceding `cs` is `prev`.
The engine finds a match at a position iff some path exists there, so the
engine's greedy preference order never needs to be reasoned about. -/

/-- Wordness of an optional character (absent counts as non-word). -/
def isWordOpt : Option Char → Bool
  | some c => isWordChar c
  | none => false

/-- Declarative match relation: `PathR r prev cs n` — `r` matches the
first `n` characters of `cs` in context `prev`. -/
inductive PathR : Re → Option Char → List Char → Nat → Prop where
  | eps {prev cs} : PathR .eps prev cs 0
  | lit {c prev cs} : cs.head? = some c → PathR (.lit c) prev cs 1
  | cls {p prev cs} (c : Char) : cs.head? = some c → p c = true →
      PathR (.cls p) prev cs 1
  | wb {prev cs} : isBoundary prev cs.head? = true → PathR .wb prev cs 0
  | seq {a b prev cs n1 n2} : PathR a prev cs n1 →
      PathR b (prevAfter prev cs n1) (cs.drop n1) n2 →
      PathR (.seq a b) prev cs (n1 + n2)
  | optS {a prev cs n} : PathR a prev cs n → PathR (.opt a) prev cs n
  | optN {a prev cs} : PathR (.opt a) prev cs 0
  | rep {p lo hi prev cs} (j : Nat) : lo ≤ j → j ≤ hi → j ≤ cs.length →
      (∀ c ∈ cs.take j, p c = true) → PathR (.clsRep p lo hi) prev cs j
  | plus {p lo prev cs} (j : Nat) : lo ≤ j → j ≤ cs.length →
      (∀ c ∈ cs.take j, p c = true) → PathR (.clsPlus p lo) prev cs j

/-- The union of the character classes and literals a regex can consume. -/
def alphaOf : Re → Char → Bool
  | .eps, _ => false
  | .lit c, c' => c' = c
  | .cls p, c' => p c'
  | .wb, _ => false
  | .seq a b, c => alphaOf a c || alphaOf b c
  | .opt a, c => alphaOf a c
  | .clsRep p _ _, c => p c
  | .clsPlus p _, c => p c

/-- Minimal number of characters any path of a regex consumes. -/
def minLen : Re → Nat
  | .eps => 0
  | .lit _ => 1
  | .cls _ => 1
  | .wb => 0
  | .seq a b => minLen a + minLen b
  | .opt _ => 0
  | .clsRep _ lo _ => lo
  | .clsPlus _ lo => lo

/-- `NoMatches r prev cs`: the scan of `cs` in context `prev` finds no
(non-empty) match of `r` at any position. -/
def NoMatches (r : Re) : Option Char → List Char → Prop
  | _, [] => True
  | prev, c :: cs => (∀ n, ¬ PathR r prev (c :: cs) (n + 1)) ∧ NoMatches r (some c) cs

/-- Executable companion of `NoMatches` (used to state the label
precondition of C3 decidably). -/
def anyMatchB (r : Re) : Option Char → List Char → Bool
  | _, [] => false
  | prev, c :: cs =>
    (match findMatchAt r prev (c :: cs) with
     | some (_ + 1) => true
     | _ => false) || anyMatchB r (some c) cs

/-! ### Provenance chunks of one global replace -/

/-- One chunk of a global-replace run: an untouched original character or
a replaced match (holding the consumed original characters). -/
inductive Chunk where
  | orig : Char → Chunk
  | rep : List Char → Chunk

/-- The original characters a chunk list came from. -/
def sourceChunks : List Chunk → List Char
  | [] => []
  | .orig c :: t => c :: sourceChunks t
  | .rep u :: t => u ++ sourceChunks t

/-- The output text of a chunk list, with each match replaced by `lab`. -/
def renderChunks (lab : List Char) : List Chunk → List Char
  | [] => []
  | .orig c :: t => c :: renderChunks lab t
  | .rep _ :: t => lab ++ renderChunks lab t

/-- The chunk decomposition performed by `gReplaceAux` (same scan, with
provenance kept instead of splicing the label). -/
def chunksOf (r : Re) : Nat → Option Char → List Char → List Chunk
  | 0, _, _ => []
  | _ + 1, _, [] => []
  | fuel + 1, prev, c :: cs =>
    match findMatchAt r prev (c :: cs) with
    | some (n + 1) =>
      .rep ((c :: cs).take (n + 1)) ::
        chunksOf r fuel ((c :: cs).get? n) ((c :: cs).drop (n + 1))
    | _ => .orig c :: chunksOf r fuel (some c) cs

/-- Invariant of a scan's chunk list: each replaced chunk carries a
genuine non-empty path (judged in original context), and each untouched
character had no match at its position. -/
inductive GoodChunks (r : Re) : Option Char → List Chunk → Prop where
  | nil {prev} : GoodChunks r prev []
  | orig {prev c t} : (∀ n, ¬ PathR r prev (c :: sourceChunks t) (n + 1)) →
      GoodChunks r (some c) t → GoodChunks r prev (.orig c :: t)
  | rep {prev t} (u : List Char) : u ≠ [] →
      PathR r prev (u ++ sourceChunks t) u.length →
      GoodChunks r u.getLast? t → GoodChunks r prev (.rep u :: t)

/-- `OrigClean p prev chs`: at every untouched-character position of the
chunk list, no (non-empty) `p`-path starts in source context. -/
def OrigClean (p : Re) : Option Char → List Chunk → Prop
  | _, [] => True
  | prev, .orig c :: t =>
    (∀ n, ¬ PathR p prev (c :: sourceChunks t) (n + 1)) ∧ OrigClean p (some c) t
  | _, .rep u :: t => OrigClean p u.getLast? t

/-- The two context states of the rendered-versus-source scan: in sync
(same wordness), or just after a label, where the rendered side sees `]`
while the source side sees the word character ending the replaced match,
and the upcoming source character is non-word. -/
def SeamOK (prevT prevO srcHead : Option Char) : Prop :=
  isWordOpt prevT = isWordOpt prevO ∨
    (prevO = some ']' ∧ isWordOpt prevT = true ∧ isWordOpt srcHead = false)

/-- The facts the seam analysis needs about a pattern: every path is
non-empty, is delimited by word boundaries on both sides, ends in a word
character, consumes only alphabet characters (which exclude the
brackets), and consumes at least one anchor character. -/
structure PatFacts (r : Re) (anchor : Char → Bool) : Prop where
  nonempty : ∀ {prev cs n}, PathR r prev cs n → 1 ≤ n
  startB : ∀ {prev cs n}, PathR r prev cs n → isBoundary prev cs.head? = true
  endB : ∀ {prev cs n}, PathR r prev cs n →
    isBoundary (prevAfter prev cs n) (cs.drop n).head? = true
  endWord : ∀ {prev cs n}, PathR r prev cs n → isWordOpt (prevAfter prev cs n) = true
  alphaOk : ∀ {prev cs n}, PathR r prev cs n → ∀ c ∈ cs.take n, alphaOf r c = true
  anchorOk : ∀ {prev cs n}, PathR r prev cs n → ∃ c ∈ cs.take n, anchor c = true
  noBracket : alphaOf r '[' = false ∧ alphaOf r ']' = false

/-- The anchor class of the email pattern: the mandatory `@`. -/
def emailAnchor (c : Char) : Bool := c = '@'

/-- The anchor class of the digit-based patterns: any decimal digit. -/
def digitAnchor (c : Char) : Bool := c.isDigit

/-! ## Helper lemmas -/

/-- A string is contained in any concatenation that has it as the middle
piece. -/
theorem containsSubstr_of_infix {s sub : String} (h : sub.data <:+: s.data) :
    containsSubstr s sub = true := by
  simp only [containsSubstr, decide_eq_true_eq]
  exact h

/-- Middle piece of a double concatenation is an infix. -/
theorem infix_append_mid (a b c : String) : b.data <:+: (a ++ b ++ c).data := by
  refine ⟨a.data, c.data, ?_⟩
  simp [String.data_append]

/-- Every member of a joined list is contained in the join. -/
theorem data_infix_joinWith (sep k : String) (l : List String) (h : k ∈ l) :
    k.data <:+: (joinWith sep l).data := by
  induction l with
  | nil => cases h
  | cons a rest ih =>
    cases rest with
    | nil =>
      rcases List.mem_singleton.mp h with rfl
      exact List.infix_refl _
    | cons b t =>
      rcases List.mem_cons.mp h with rfl | hmem
      · refine ⟨[], (sep ++ joinWith sep (b :: t)).data, ?_⟩
        simp [joinWith, String.data_append]
      · refine (ih hmem).trans ⟨(a ++ sep).data, [], ?_⟩
        simp [joinWith, String.data_append]

/-- `finishCall` issues exactly the one request it is given. -/
theorem finishCall_requests (label : String)
    (credList : List String) (req : HttpReq) (resp : HttpResp)
    (dec : Json → Except Unit (Option Json)) :
    (finishCall label credList req resp dec).requests = [req] := by
  unfold finishCall
  by_cases h : resp.success
  · simp only [h, if_true]
    split
    · rfl
    · split <;> rfl
  · simp [h]

/-- On a non-success transport response, `finishCall` reports the status
and body and never invokes the success callback. -/
theorem finishCall_failure (label : String) (credList : List String)
    (req : HttpReq) (resp : HttpResp) (dec : Json → Except Unit (Option Json))
    (h : resp.success = false) :
    finishCall label credList req resp dec =
      ⟨[label ++ " API error " ++ toString resp.statusCode ++ ": " ++ resp.responseText],
       [], [req], credList⟩ := by
  unfold finishCall
  simp [h]

/-- `finishCall` forwards the credential bookkeeping it is given. -/
theorem finishCall_credReqs (label : String) (credList : List String)
    (req : HttpReq) (resp : HttpResp) (dec : Json → Except Unit (Option Json)) :
    (finishCall label credList req resp dec).credReqs = credList := by
  unfold finishCall
  by_cases h : resp.success
  · simp only [h, if_true]
    split
    · rfl
    · split <;> rfl
  · simp [h]

/-- On a success transport response with an unparsable body, `finishCall`
reports the parse failure. -/
theorem finishCall_parse_none (label : String) (credList : List String)
    (req : HttpReq) (resp : HttpResp) (dec : Json → Except Unit (Option Json))
    (hs : resp.success = true) (hp : parseJson resp.responseText = none) :
    finishCall label credList req resp dec =
      ⟨[label ++ ": failed to parse response — " ++ jsonSyntaxErr], [], [req], credList⟩ := by
  unfold finishCall
  simp [hs, hp]

/-- On a success transport response whose decode chain throws,
`finishCall` reports the parse failure. -/
theorem finishCall_decode_error (label : String) (credList : List String)
    (req : HttpReq) (resp : HttpResp) (dec : Json → Except Unit (Option Json))
    (j : Json) (hs : resp.success = true)
    (hp : parseJson resp.responseText = some j) (hd : dec j = .error ()) :
    finishCall label credList req resp dec =
      ⟨[label ++ ": failed to parse response — " ++ jsTypeErr], [], [req], credList⟩ := by
  unfold finishCall
  simp [hs, hp, hd]

/-- On a success transport response whose decode chain produces a value,
`finishCall` invokes the success callback with it. -/
theorem finishCall_decode_ok (label : String) (credList : List String)
    (req : HttpReq) (resp : HttpResp) (dec : Json → Except Unit (Option Json))
    (j : Json) (v : Option Json) (hs : resp.success = true)
    (hp : parseJson resp.responseText = some j) (hd : dec j = .ok v) :
    finishCall label credList req resp dec = ⟨[], [v], [req], credList⟩ := by
  unfold finishCall
  simp [hs, hp, hd]

/-- A chat adapter whose key resolves and whose transport fails: exactly
one request, the uniform error string, no success. -/
theorem mkChatAdapter_transport_failure (label credKey defEp defModel : String)
    (cfg : ProviderConfig) (p : PromptParams) (env : Env) (c : Int) (b : String)
    (hhttp : ∀ q, env.http q = ⟨false, c, b⟩)
    (hk : keyUsable (env.cred credKey) = true) :
    mkChatAdapter label credKey defEp defModel cfg p env =
      ⟨[label ++ " API error " ++ toString c ++ ": " ++ b], [],
       [mkChatReq defEp defModel ((env.cred credKey).getD "") cfg p], [credKey]⟩ := by
  unfold mkChatAdapter
  simp only [hk, Bool.not_true, Bool.false_eq_true, if_false]
  rw [hhttp]
  exact finishCall_failure _ _ _ _ _ rfl

/-- Same for the Anthropic adapter shape. -/
theorem mkAnthropicAdapter_transport_failure (label credKey defEp defModel : String)
    (cfg : ProviderConfig) (p : PromptParams) (env : Env) (c : Int) (b : String)
    (hhttp : ∀ q, env.http q = ⟨false, c, b⟩)
    (hk : keyUsable (env.cred credKey) = true) :
    mkAnthropicAdapter label credKey defEp defModel cfg p env =
      ⟨[label ++ " API error " ++ toString c ++ ": " ++ b], [],
       [mkAnthropicReq defEp defModel ((env.cred credKey).getD "") cfg p], [credKey]⟩ := by
  unfold mkAnthropicAdapter
  simp only [hk, Bool.not_true, Bool.false_eq_true, if_false]
  rw [hhttp]
  exact finishCall_failure _ _ _ _ _ rfl

/-- Same for the Ollama adapter shape (no credential involved). -/
theorem mkOllamaAdapter_transport_failure (label defEp defModel : String)
    (cfg : ProviderConfig) (p : PromptParams) (env : Env) (c : Int) (b : String)
    (hhttp : ∀ q, env.http q = ⟨false, c, b⟩) :
    mkOllamaAdapter label defEp defModel cfg p env =
      ⟨[label ++ " API error " ++ toString c ++ ": " ++ b], [],
       [mkOllamaReq defEp defModel cfg p], []⟩ := by
  unfold mkOllamaAdapter
  simp only [hhttp]
  exact finishCall_failure _ _ _ _ _ rfl

/-- A chat adapter whose key resolves and whose transport succeeds is
`finishCall` on its one request against the constant response. -/
theorem mkChatAdapter_const_response (label credKey defEp defModel : String)
    (cfg : ProviderConfig) (p : PromptParams) (env : Env) (resp : HttpResp)
    (hhttp : ∀ q, env.http q = resp)
    (hk : keyUsable (env.cred credKey) = true) :
    mkChatAdapter label credKey defEp defModel cfg p env =
      finishCall label [credKey]
        (mkChatReq defEp defModel ((env.cred credKey).getD "") cfg p) resp decodeChat := by
  unfold mkChatAdapter
  simp only [hk, Bool.not_true, Bool.false_eq_true, if_false]
  rw [hhttp]

/-- Same for the Anthropic adapter shape. -/
theorem mkAnthropicAdapter_const_response (label credKey defEp defModel : String)
    (cfg : ProviderConfig) (p : PromptParams) (env : Env) (resp : HttpResp)
    (hhttp : ∀ q, env.http q = resp)
    (hk : keyUsable (env.cred credKey) = true) :
    mkAnthropicAdapter label credKey defEp defModel cfg p env =
      finishCall label [credKey]
        (mkAnthropicReq defEp defModel ((env.cred credKey).getD "") cfg p) resp decodeAnthropic := by
  unfold mkAnthropicAdapter
  simp only [hk, Bool.not_true, Bool.false_eq_true, if_false]
  rw [hhttp]

/-- Every request a chat adapter issues carries `params.input || ''` as
the user-role content. -/
theorem mkChatAdapter_bodyUser (label credKey defEp defModel : String)
    (cfg : ProviderConfig) (p : PromptParams) (env : Env) (r : HttpReq)
    (h : r ∈ (mkChatAdapter label credKey defEp defModel cfg p env).requests) :
    r.bodyUser = jsOr p.input (.str "") := by
  unfold mkChatAdapter at h
  by_cases hk : keyUsable (env.cred credKey)
  · simp only [hk, Bool.not_true, Bool.false_eq_true, if_false] at h
    rw [finishCall_requests] at h
    rcases List.mem_singleton.mp h with rfl
    rfl
  · simp only [Bool.not_eq_true] at hk
    simp [hk] at h

/-- Every request the Anthropic adapter issues carries `params.input || ''`
as the user-role content. -/
theorem mkAnthropicAdapter_bodyUser (label credKey defEp defModel : String)
    (cfg : ProviderConfig) (p : PromptParams) (env : Env) (r : HttpReq)
    (h : r ∈ (mkAnthropicAdapter label credKey defEp defModel cfg p env).requests) :
    r.bodyUser = jsOr p.input (.str "") := by
  unfold mkAnthropicAdapter at h
  by_cases hk : keyUsable (env.cred credKey)
  · simp only [hk, Bool.not_true, Bool.false_eq_true, if_false] at h
    rw [finishCall_requests] at h
    rcases List.mem_singleton.mp h with rfl
    rfl
  · simp only [Bool.not_eq_true] at hk
    simp [hk] at h

/-- Every request the Ollama adapter issues carries `params.input || ''`
as the user-role content. -/
theorem mkOllamaAdapter_bodyUser (label defEp defModel : String)
    (cfg : ProviderConfig) (p : PromptParams) (env : Env) (r : HttpReq)
    (h : r ∈ (mkOllamaAdapter label defEp defModel cfg p env).requests) :
    r.bodyUser = jsOr p.input (.str "") := by
  unfold mkOllamaAdapter at h
  rw [finishCall_requests] at h
  rcases List.mem_singleton.mp h with rfl
  rfl

/-- `a || ''` is always a string value. -/
theorem jsOr_empty_is_str (v : JsStr) : ∃ s, jsOr v (.str "") = .str s := by
  cases v with
  | undef => exact ⟨"", rfl⟩
  | null => exact ⟨"", rfl⟩
  | str s =>
    by_cases hs : s = ""
    · subst hs
      exact ⟨"", rfl⟩
    · exact ⟨s, by simp [jsOr, JsStr.truthy, hs]⟩

/-- Every request `engineRoute` issues carries `params.input || ''` of the
post-gate params as the user-role content, and names the provider that
was dispatched. -/
theorem engineRoute_bodyUser (flag : Bool) (cfg : ProviderConfig)
    (p : PromptParams) (env : Env) (r : HttpReq)
    (h : r ∈ (P1.engineRoute flag cfg p env).requests) :
    ∃ prov, cfg.provider = some prov ∧
      r.bodyUser = jsOr (P1.applyGate flag prov p).input (.str "") := by
  unfold P1.engineRoute at h
  cases hc : cfg.provider with
  | none =>
    rw [hc] at h
    simp at h
  | some prov =>
    rw [hc] at h
    by_cases hp : prov = ""
    · subst hp
      simp at h
    · refine ⟨prov, rfl, ?_⟩
      simp only [hp, if_false] at h
      split at h
      · exact mkChatAdapter_bodyUser _ _ _ _ _ _ _ _ h
      · exact mkChatAdapter_bodyUser _ _ _ _ _ _ _ _ h
      · exact mkAnthropicAdapter_bodyUser _ _ _ _ _ _ _ _ h
      · exact mkOllamaAdapter_bodyUser _ _ _ _ _ _ _ h
      · simp at h

/-- Every request `engine.callAI` issues carries `params.input || ''` of
the post-gate normalized params as the user-role content. -/
theorem engineCallAI_bodyUser (flag : Bool) (marg : P1.ModelArg)
    (parg : P1.ParamsArg) (sarg : P1.SuccessArg) (env : Env) (r : HttpReq)
    (h : r ∈ (P1.engineCallAI flag marg parg sarg env).requests) :
    ∃ prov, r.bodyUser =
      jsOr (P1.applyGate flag prov (P1.normalizeParams parg)).input (.str "") := by
  unfold P1.engineCallAI at h
  have hroute : ∀ cfg, r ∈ (P1.engineRoute flag cfg (P1.normalizeParams parg) env).requests →
      ∃ prov, r.bodyUser =
        jsOr (P1.applyGate flag prov (P1.normalizeParams parg)).input (.str "") := by
    intro cfg hr
    obtain ⟨prov, _, hb⟩ := engineRoute_bodyUser flag cfg (P1.normalizeParams parg) env r hr
    exact ⟨prov, hb⟩
  cases sarg with
  | kw k =>
    by_cases hk : P1.SUCCESS_KEYWORDS.contains k
    · simp only [hk, if_true] at h
      cases marg with
      | sh s =>
        cases hm : P1.lookupModel s with
        | none => simp only [hm] at h; simp at h
        | some cfg => simp only [hm] at h; exact hroute cfg h
      | cfg cfg => exact hroute cfg h
    · simp only [hk, Bool.false_eq_true, if_false] at h
      simp at h
  | fn =>
    cases marg with
    | sh s =>
      cases hm : P1.lookupModel s with
      | none => simp only [hm] at h; simp at h
      | some cfg => simp only [hm] at h; exact hroute cfg h
    | cfg cfg => exact hroute cfg h
  | other =>
    cases marg with
    | sh s =>
      cases hm : P1.lookupModel s with
      | none => simp only [hm] at h; simp at h
      | some cfg => simp only [hm] at h; exact hroute cfg h
    | cfg cfg => exact hroute cfg h

/-! ## Claim theorems -/

/-- C1: for every `PromptParams`, both versions of `buildSystemPrompt`
produce exactly the specification's `assemble`: the sections in the fixed
order Role, Goal, Instructions (from `steps`), Output Format (from
`output`), Example, each rendered as a `# <Label>` heading line followed
by the trimmed value, omitting every absent or whitespace-only field, and
joined by exactly one blank line; and whenever every section is absent or
blank, the result is the empty string. -/
theorem buildSystemPrompt_matches_assemble_spec :
    (∀ p : PromptParams, P1.buildSystemPrompt p = assembleSpec p) ∧
    (∀ p : PromptParams, JsEngine.buildSystemPrompt p = assembleSpec p) ∧
    (∀ p : PromptParams, ((sectionList p).all fun lv => !includeSection lv.2) →
      P1.buildSystemPrompt p = "") := by
  refine ⟨?_, ?_, ?_⟩
  · intro p
    unfold P1.buildSystemPrompt assembleSpec
    rw [buildParts_eq_filterMap]
  · intro p
    rfl
  · intro p h
    unfold P1.buildSystemPrompt
    rw [buildParts_eq_filterMap]
    have hnil : (sectionList p).filter (fun lv => includeSection lv.2) = [] := by
      rw [List.filter_eq_nil]
      intro a ha
      have := List.all_eq_true.mp h a ha
      simpa using this
    rw [hnil]
    rfl

/-- Witness for C1 at the all-absent params: the blankness hypothesis
holds and the assembled prompt is empty. -/
theorem buildSystemPrompt_matches_assemble_spec_witness :
    ((sectionList emptyParams).all fun lv => !includeSection lv.2) ∧
    P1.buildSystemPrompt emptyParams = "" :=
  ⟨by decide, buildSystemPrompt_matches_assemble_spec.2.2 emptyParams (by decide)⟩

/-- C7: for every shorthand string that is not a registry key (and any
success argument that resolves), `engine.callAI` reports exactly one
error whose message names the unknown key and contains every known
shorthand key, never invokes the success callback, performs no HTTP
request and no credential lookup. -/
theorem unknown_model_enumerates_keys (s : String) (flag : Bool)
    (params : P1.ParamsArg) (su : P1.SuccessArg) (env : Env)
    (hm : P1.lookupModel s = none) (hsu : P1.successResolves su = true) :
    (P1.engineCallAI flag (.sh s) params su env).errors =
      ["ai-engine: unknown model \"" ++ s ++ "\". Available: " ++
        joinWith ", " P1.modelKeys] ∧
    (P1.engineCallAI flag (.sh s) params su env).successes = [] ∧
    (P1.engineCallAI flag (.sh s) params su env).requests = [] ∧
    (P1.engineCallAI flag (.sh s) params su env).credReqs = [] ∧
    containsSubstr ("ai-engine: unknown model \"" ++ s ++ "\". Available: " ++
      joinWith ", " P1.modelKeys) s = true ∧
    ∀ k ∈ P1.modelKeys,
      containsSubstr ("ai-engine: unknown model \"" ++ s ++ "\". Available: " ++
        joinWith ", " P1.modelKeys) k = true := by
  have htrace : P1.engineCallAI flag (.sh s) params su env =
      ⟨["ai-engine: unknown model \"" ++ s ++ "\". Available: " ++
        joinWith ", " P1.modelKeys], [], [], []⟩ := by
    unfold P1.engineCallAI
    cases su with
    | kw k =>
      simp only [P1.successResolves] at hsu
      simp [hsu, hm]
      intro hk
      exact absurd (by simpa using hsu) hk
    | fn => simp [hm]
    | other => simp [hm]
  refine ⟨by rw [htrace], by rw [htrace], by rw [htrace], by rw [htrace], ?_, ?_⟩
  · apply containsSubstr_of_infix
    have : s.data <:+:
        (("ai-engine: unknown model \"" ++ s) ++
          ("\". Available: " ++ joinWith ", " P1.modelKeys)).data := by
      refine ⟨"ai-engine: unknown model \"".data,
              ("\". Available: " ++ joinWith ", " P1.modelKeys).data, ?_⟩
      simp [String.data_append]
    simpa [String.data_append] using this
  · intro k hk
    apply containsSubstr_of_infix
    refine (data_infix_joinWith ", " k P1.modelKeys hk).trans ?_
    refine ⟨("ai-engine: unknown model \"" ++ s ++ "\". Available: ").data, [], ?_⟩
    simp [String.data_append]

/-- Witness for C7: the spec's own example key. -/
theorem unknown_model_enumerates_keys_witness :
    P1.lookupModel "no-such-model" = none ∧
    (P1.engineCallAI false (.sh "no-such-model") (.pstr "hi") .fn
      ⟨fun _ => none, fun _ => ⟨false, 0, ""⟩⟩).requests = [] :=
  ⟨rfl,
   (unknown_model_enumerates_keys "no-such-model" false (.pstr "hi") .fn
      ⟨fun _ => none, fun _ => ⟨false, 0, ""⟩⟩ rfl rfl).2.2.1⟩

/-- C9 (counterexample): the claim says `ai_title` is set to the first
line of the response text (truncated only if longer than 80 characters),
but on `" a\nb"` the code stores the *trimmed* first line `"a"`, not the
first line `" a"`. -/
theorem tokens_title_not_raw_first_line :
    getTag (tokensHandler " a\nb" ⟨"", [], 0⟩) "ai_title" = some "a" ∧
    firstLineOf " a\nb" = " a" ∧
    (" a").length ≤ 80 ∧
    some "a" ≠ some " a" := by
  refine ⟨by decide, by decide, by decide, by decide⟩

/-- C9 (amended): the `tokens` handler sets `ai_title` to the *trimmed*
first line of the response text, truncated to 80 characters if longer,
sets `ai_content` to the full response text, persists the draft, and
leaves the content untouched. -/
theorem tokens_handler_sets_tags (s : String) (d : DraftState) :
    getTag (tokensHandler s d) "ai_title" =
      some (if (jsTrim (firstLineOf s)).length > 80
            then takeChars 80 (jsTrim (firstLineOf s))
            else jsTrim (firstLineOf s)) ∧
    getTag (tokensHandler s d) "ai_content" = some s ∧
    (tokensHandler s d).updates = d.updates + 1 ∧
    (tokensHandler s d).content = d.content := by
  refine ⟨?_, ?_, rfl, rfl⟩
  · simp [tokensHandler, getTag, setTag, updateDraft, List.lookup]
  · simp [tokensHandler, getTag, setTag, updateDraft, List.lookup]

/-- C5: with a transport collaborator that reports non-success with a
given status code and body, every adapter invokes the error callback with
exactly one message that contains both the numeric status code and the
raw response body verbatim, never invokes the success callback, and
issues exactly one HTTP request. -/
theorem transport_failure_reported (c : Int) (b key : String)
    (cfg : ProviderConfig) (p : PromptParams) (env : Env)
    (hhttp : ∀ q, env.http q = ⟨false, c, b⟩)
    (hcred : ∀ pk, env.cred pk = some key) (hkey : key ≠ "") :
    ((P1.callAlter cfg p env).errors =
        ["AlterHQ API error " ++ toString c ++ ": " ++ b] ∧
      (P1.callAlter cfg p env).successes = [] ∧
      (P1.callAlter cfg p env).requests.length = 1) ∧
    ((P1.callOpenAI cfg p env).errors =
        ["OpenAI API error " ++ toString c ++ ": " ++ b] ∧
      (P1.callOpenAI cfg p env).successes = [] ∧
      (P1.callOpenAI cfg p env).requests.length = 1) ∧
    ((P1.callAnthropic cfg p env).errors =
        ["Anthropic API error " ++ toString c ++ ": " ++ b] ∧
      (P1.callAnthropic cfg p env).successes = [] ∧
      (P1.callAnthropic cfg p env).requests.length = 1) ∧
    ((P1.callOllama cfg p env).errors =
        ["Ollama API error " ++ toString c ++ ": " ++ b] ∧
      (P1.callOllama cfg p env).successes = [] ∧
      (P1.callOllama cfg p env).requests.length = 1) ∧
    (∀ label : String,
      containsSubstr (label ++ " API error " ++ toString c ++ ": " ++ b) (toString c) = true ∧
      containsSubstr (label ++ " API error " ++ toString c ++ ": " ++ b) b = true) := by
  have hk : ∀ pk, keyUsable (env.cred pk) = true := by
    intro pk
    rw [hcred]
    simp [keyUsable, hkey]
  have hA := mkChatAdapter_transport_failure "AlterHQ" "AlterHQ"
    "https://alterhq.com/api/v1" "OpenAI#gpt-4o" cfg p env c b hhttp (hk _)
  have hO := mkChatAdapter_transport_failure "OpenAI" "OpenAI"
    "https://api.openai.com/v1" "gpt-4o" cfg p env c b hhttp (hk _)
  have hN := mkAnthropicAdapter_transport_failure "Anthropic" "Anthropic"
    "https://api.anthropic.com" "claude-opus-4-6" cfg p env c b hhttp (hk _)
  have hL := mkOllamaAdapter_transport_failure "Ollama"
    "http://localhost:11434" "llama3" cfg p env c b hhttp
  refine ⟨?_, ?_, ?_, ?_, ?_⟩
  · unfold P1.callAlter
    rw [hA]
    exact ⟨rfl, rfl, rfl⟩
  · unfold P1.callOpenAI
    rw [hO]
    exact ⟨rfl, rfl, rfl⟩
  · unfold P1.callAnthropic
    rw [hN]
    exact ⟨rfl, rfl, rfl⟩
  · unfold P1.callOllama
    rw [hL]
    exact ⟨rfl, rfl, rfl⟩
  · intro label
    constructor
    · apply containsSubstr_of_infix
      refine ⟨(label ++ " API error ").data, (": " ++ b).data, ?_⟩
      simp [String.data_append]
    · apply containsSubstr_of_infix
      refine ⟨(label ++ " API error " ++ toString c ++ ": ").data, [], ?_⟩
      simp [String.data_append]

/-- Witness for C5: the spec's simulated `500`/`boom` failure on the
AlterHQ adapter. -/
theorem transport_failure_reported_witness :
    (P1.callAlter ⟨some "alter", some "https://alterhq.com/api/v1", some "m"⟩ emptyParams
      ⟨fun _ => some "k", fun _ => ⟨false, 500, "boom"⟩⟩).errors =
      ["AlterHQ API error 500: boom"] ∧
    containsSubstr "AlterHQ API error 500: boom" "500" = true ∧
    containsSubstr "AlterHQ API error 500: boom" "boom" = true := by
  have h := transport_failure_reported 500 "boom" "k"
    ⟨some "alter", some "https://alterhq.com/api/v1", some "m"⟩ emptyParams
    ⟨fun _ => some "k", fun _ => ⟨false, 500, "boom"⟩⟩
    (fun _ => rfl) (fun _ => rfl) (by decide)
  refine ⟨h.1.1.trans (by decide), ?_, ?_⟩
  · have := (h.2.2.2.2 "AlterHQ").1
    simpa using this
  · have := (h.2.2.2.2 "AlterHQ").2
    simpa using this

/-- C8: a credentialed adapter whose credential resolver returns no key
invokes the error callback with the provider-specific
"failed to retrieve key" message and performs no HTTP request; the Ollama
adapter never consults the credential resolver at all. -/
theorem credential_gate_no_network (cfg : ProviderConfig) (p : PromptParams)
    (env : Env) :
    (env.cred "AlterHQ" = none →
      P1.callAlter cfg p env =
        ⟨["AlterHQ: failed to retrieve API key."], [], [], ["AlterHQ"]⟩) ∧
    (env.cred "OpenAI" = none →
      P1.callOpenAI cfg p env =
        ⟨["OpenAI: failed to retrieve API key."], [], [], ["OpenAI"]⟩) ∧
    (env.cred "Anthropic" = none →
      P1.callAnthropic cfg p env =
        ⟨["Anthropic: failed to retrieve API key."], [], [], ["Anthropic"]⟩) ∧
    (P1.callOllama cfg p env).credReqs = [] := by
  refine ⟨?_, ?_, ?_, ?_⟩
  · intro h
    unfold P1.callAlter mkChatAdapter
    simp [h, keyUsable]
  · intro h
    unfold P1.callOpenAI mkChatAdapter
    simp [h, keyUsable]
  · intro h
    unfold P1.callAnthropic mkAnthropicAdapter
    simp [h, keyUsable]
  · unfold P1.callOllama mkOllamaAdapter
    exact finishCall_credReqs _ _ _ _ _

/-- Witness for C8: a declining credential store yields the AlterHQ
failure trace with no request, and the Ollama adapter records no
credential lookup. -/
theorem credential_gate_no_network_witness :
    P1.callAlter ⟨some "alter", some "https://alterhq.com/api/v1", some "m"⟩ emptyParams
      ⟨fun _ => none, fun _ => ⟨false, 0, ""⟩⟩ =
      ⟨["AlterHQ: failed to retrieve API key."], [], [], ["AlterHQ"]⟩ ∧
    (P1.callOllama ⟨some "ollama", some "http://localhost:11434", some "llama3"⟩ emptyParams
      ⟨fun _ => none, fun _ => ⟨false, 0, ""⟩⟩).credReqs = [] :=
  ⟨(credential_gate_no_network ⟨some "alter", some "https://alterhq.com/api/v1", some "m"⟩
      emptyParams ⟨fun _ => none, fun _ => ⟨false, 0, ""⟩⟩).1 rfl,
   (credential_gate_no_network ⟨some "ollama", some "http://localhost:11434", some "llama3"⟩
      emptyParams ⟨fun _ => none, fun _ => ⟨false, 0, ""⟩⟩).2.2.2⟩

/-- C2: with the sanitization flag enabled, for every non-`ollama`
provider the params delivered past the gate have `input` replaced by
`sanitize(input)` while `role`, `goal`, `steps`, `output` and `example`
are exactly the caller-supplied values; for the `ollama` provider the
gate passes the params through unchanged and the dispatcher delivers them
to the local adapter unscrubbed. -/
theorem sanitize_gate_scrubs_only_input :
    (∀ (prov : String) (p : PromptParams) (s : String),
      prov ≠ "ollama" → p.input = .str s →
      (P1.applyGate true prov p).input = .str (sanitizeText s) ∧
      (P1.applyGate true prov p).role = p.role ∧
      (P1.applyGate true prov p).goal = p.goal ∧
      (P1.applyGate true prov p).steps = p.steps ∧
      (P1.applyGate true prov p).output = p.output ∧
      (P1.applyGate true prov p).exampleVal = p.exampleVal) ∧
    (∀ p : PromptParams, P1.applyGate true "ollama" p = p) ∧
    (∀ (cfg : ProviderConfig) (p : PromptParams) (env : Env),
      cfg.provider = some "ollama" →
      P1.engineRoute true cfg p env = P1.callOllama cfg p env) := by
  refine ⟨?_, ?_, ?_⟩
  · intro prov p s hprov hin
    have hcond : (true && (prov != "ollama")) = true := by
      simp [hprov]
    unfold P1.applyGate
    rw [hcond]
    refine ⟨?_, rfl, rfl, rfl, rfl, rfl⟩
    show sanitizeJs (jsOr p.input (.str "")) = .str (sanitizeText s)
    rw [hin]
    by_cases hs : s = ""
    · subst hs
      rfl
    · simp [jsOr, JsStr.truthy, sanitizeJs, hs]
  · intro p
    rfl
  · intro cfg p env h
    unfold P1.engineRoute
    rw [h]
    rfl

/-- Witness for C2: scrubbing an email through the gate for the `alter`
provider while the role field passes through untouched. -/
theorem sanitize_gate_scrubs_only_input_witness :
    (P1.applyGate true "alter"
      ⟨.str "r", .undef, .undef, .undef, .undef, .str "a@b.com"⟩).input =
      .str (sanitizeText "a@b.com") ∧
    (P1.applyGate true "alter"
      ⟨.str "r", .undef, .undef, .undef, .undef, .str "a@b.com"⟩).role = .str "r" ∧
    sanitizeText "a@b.com" = "[EMAIL]" :=
  ⟨(sanitize_gate_scrubs_only_input.1 "alter" _ "a@b.com" (by decide) rfl).1,
   (sanitize_gate_scrubs_only_input.1 "alter" _ "a@b.com" (by decide) rfl).2.1,
   by decide⟩

/-- C4: endpoint-substring sniffing maps the routing proxy's domain to
`alter`, the two direct providers' domains to `openai`/`anthropic`,
loopback/`ollama` endpoints to `ollama`, and any other non-empty endpoint
to the OpenAI-compatible default; a custom config without a usable
endpoint (module version) or without a usable provider field (IIFE
version) aborts through the error callback with no HTTP request and no
credential lookup; and a sniffed default endpoint is dispatched to the
OpenAI-compatible adapter. -/
theorem provider_resolution_and_abort :
    (∀ e : String, e ≠ "" →
      containsSubstr (toLowerStr e) "alterhq.com" = true →
      JsEngine.detectProvider e = "alter") ∧
    (∀ e : String, e ≠ "" →
      containsSubstr (toLowerStr e) "alterhq.com" = false →
      containsSubstr (toLowerStr e) "openai.com" = true →
      JsEngine.detectProvider e = "openai") ∧
    (∀ e : String, e ≠ "" →
      containsSubstr (toLowerStr e) "alterhq.com" = false →
      containsSubstr (toLowerStr e) "openai.com" = false →
      containsSubstr (toLowerStr e) "anthropic.com" = true →
      JsEngine.detectProvider e = "anthropic") ∧
    (∀ e : String, e ≠ "" →
      containsSubstr (toLowerStr e) "alterhq.com" = false →
      containsSubstr (toLowerStr e) "openai.com" = false →
      containsSubstr (toLowerStr e) "anthropic.com" = false →
      (containsSubstr (toLowerStr e) "localhost" = true ∨
       containsSubstr (toLowerStr e) "127.0.0.1" = true ∨
       containsSubstr (toLowerStr e) "ollama" = true) →
      JsEngine.detectProvider e = "ollama") ∧
    (∀ e : String, e ≠ "" →
      containsSubstr (toLowerStr e) "alterhq.com" = false →
      containsSubstr (toLowerStr e) "openai.com" = false →
      containsSubstr (toLowerStr e) "anthropic.com" = false →
      containsSubstr (toLowerStr e) "localhost" = false →
      containsSubstr (toLowerStr e) "127.0.0.1" = false →
      containsSubstr (toLowerStr e) "ollama" = false →
      JsEngine.detectProvider e = "openai") ∧
    (∀ (cfg : ProviderConfig) (p : PromptParams) (env : Env),
      (cfg.endpoint = none ∨ cfg.endpoint = some "") →
      JsEngine.callAI (.cfg cfg) p env =
        ⟨["ai-engine: a valid model shorthand or config object with an endpoint is required."],
         [], [], []⟩) ∧
    (∀ (flag : Bool) (cfg : ProviderConfig) (p : PromptParams) (env : Env),
      (cfg.provider = none ∨ cfg.provider = some "") →
      P1.engineRoute flag cfg p env =
        ⟨["ai-engine: config must include a provider field (alter, openai, anthropic, or ollama)."],
         [], [], []⟩) ∧
    (∀ (cfg : ProviderConfig) (p : PromptParams) (env : Env) (e : String),
      cfg.endpoint = some e → e ≠ "" →
      JsEngine.detectProvider e = "openai" →
      JsEngine.callAI (.cfg cfg) p env = JsEngine.callOpenAI cfg p env) := by
  refine ⟨?_, ?_, ?_, ?_, ?_, ?_, ?_, ?_⟩
  · intro e he h1
    unfold JsEngine.detectProvider
    simp [he, h1]
  · intro e he h1 h2
    unfold JsEngine.detectProvider
    simp [he, h1, h2]
  · intro e he h1 h2 h3
    unfold JsEngine.detectProvider
    simp [he, h1, h2, h3]
  · intro e he h1 h2 h3 h4
    unfold JsEngine.detectProvider
    rcases h4 with h | h | h <;> simp [he, h1, h2, h3, h]
  · intro e he h1 h2 h3 h4 h5 h6
    unfold JsEngine.detectProvider
    simp [he, h1, h2, h3, h4, h5, h6]
  · intro cfg p env h
    unfold JsEngine.callAI
    rcases h with h | h <;> simp [h]
  · intro flag cfg p env h
    unfold P1.engineRoute
    rcases h with h | h <;> rw [h] <;> rfl
  · intro cfg p env e hc he hd
    unfold JsEngine.callAI
    simp only [hc]
    rw [if_neg he, hd]
    rfl

/-- Witness for C4, at one concrete endpoint per sniffing rule plus the
two abort shapes and the permissive default dispatch. -/
theorem provider_resolution_and_abort_witness :
    JsEngine.detectProvider "https://alterhq.com/api" = "alter" ∧
    JsEngine.detectProvider "https://api.openai.com/v1" = "openai" ∧
    JsEngine.detectProvider "https://api.anthropic.com" = "anthropic" ∧
    JsEngine.detectProvider "http://localhost:11434" = "ollama" ∧
    JsEngine.detectProvider "https://my.selfhosted.server/v1" = "openai" ∧
    JsEngine.callAI (.cfg ⟨none, none, some "m"⟩) emptyParams
      ⟨fun _ => none, fun _ => ⟨false, 0, ""⟩⟩ =
      ⟨["ai-engine: a valid model shorthand or config object with an endpoint is required."],
       [], [], []⟩ ∧
    P1.engineRoute false ⟨none, some "https://x.example", some "m"⟩ emptyParams
      ⟨fun _ => none, fun _ => ⟨false, 0, ""⟩⟩ =
      ⟨["ai-engine: config must include a provider field (alter, openai, anthropic, or ollama)."],
       [], [], []⟩ :=
  ⟨provider_resolution_and_abort.1 "https://alterhq.com/api" (by decide) (by decide),
   provider_resolution_and_abort.2.1 "https://api.openai.com/v1" (by decide) (by decide)
     (by decide),
   provider_resolution_and_abort.2.2.1 "https://api.anthropic.com" (by decide) (by decide)
     (by decide) (by decide),
   provider_resolution_and_abort.2.2.2.1 "http://localhost:11434" (by decide) (by decide)
     (by decide) (by decide) (Or.inl (by decide)),
   provider_resolution_and_abort.2.2.2.2.1 "https://my.selfhosted.server/v1" (by decide)
     (by decide) (by decide) (by decide) (by decide) (by decide) (by decide),
   provider_resolution_and_abort.2.2.2.2.2.1 ⟨none, none, some "m"⟩ emptyParams
     ⟨fun _ => none, fun _ => ⟨false, 0, ""⟩⟩ (Or.inl rfl),
   provider_resolution_and_abort.2.2.2.2.2.2.1 false ⟨none, some "https://x.example", some "m"⟩
     emptyParams ⟨fun _ => none, fun _ => ⟨false, 0, ""⟩⟩ (Or.inl rfl)⟩

/-- C6 (counterexample): on a success transport response whose valid JSON
body lacks only the final `content` field of the expected path, the
AlterHQ adapter does *not* invoke the error callback — it invokes the
success callback with the JavaScript `undefined` value. -/
theorem decode_missing_final_field_invokes_success :
    (P1.callAlter ⟨some "alter", some "https://alterhq.com/api/v1", some "m"⟩ emptyParams
      ⟨fun _ => some "k",
       fun _ => ⟨true, 200, "\x7b\"choices\":[\x7b\"message\":\x7b\x7d\x7d]\x7d"⟩⟩).errors = [] ∧
    (P1.callAlter ⟨some "alter", some "https://alterhq.com/api/v1", some "m"⟩ emptyParams
      ⟨fun _ => some "k",
       fun _ => ⟨true, 200, "\x7b\"choices\":[\x7b\"message\":\x7b\x7d\x7d]\x7d"⟩⟩).successes = [none] := by
  exact ⟨rfl, rfl⟩

/-- C6 (amended): on a success transport response, if the body is not
valid JSON, or the expected field path fails before its final component
(a property access on `undefined`/`null` throws), the adapter invokes the
error callback with a parse-failure message naming the provider and the
success callback is not invoked; if the decode chain produces a value —
including `undefined` when only the final field is absent — the success
callback receives it and the error callback is not invoked.  Every decode
outcome funnels into exactly one of the two callbacks, so no exception
escapes the call. -/
theorem decode_failure_paths (body key : String) (cfg : ProviderConfig)
    (p : PromptParams) (env : Env)
    (hhttp : ∀ q, env.http q = ⟨true, 200, body⟩)
    (hcred : ∀ pk, env.cred pk = some key) (hkey : key ≠ "") :
    (parseJson body = none →
      (P1.callAlter cfg p env).errors =
        ["AlterHQ: failed to parse response — " ++ jsonSyntaxErr] ∧
      (P1.callAlter cfg p env).successes = [] ∧
      (P1.callAnthropic cfg p env).errors =
        ["Anthropic: failed to parse response — " ++ jsonSyntaxErr] ∧
      (P1.callAnthropic cfg p env).successes = []) ∧
    (∀ j : Json, parseJson body = some j → decodeChat j = .error () →
      (P1.callAlter cfg p env).errors =
        ["AlterHQ: failed to parse response — " ++ jsTypeErr] ∧
      (P1.callAlter cfg p env).successes = []) ∧
    (∀ (j : Json) (v : Option Json), parseJson body = some j → decodeChat j = .ok v →
      (P1.callAlter cfg p env).errors = [] ∧
      (P1.callAlter cfg p env).successes = [v]) ∧
    (∀ j : Json, parseJson body = some j → decodeAnthropic j = .error () →
      (P1.callAnthropic cfg p env).errors =
        ["Anthropic: failed to parse response — " ++ jsTypeErr] ∧
      (P1.callAnthropic cfg p env).successes = []) ∧
    (∀ (j : Json) (v : Option Json), parseJson body = some j → decodeAnthropic j = .ok v →
      (P1.callAnthropic cfg p env).errors = [] ∧
      (P1.callAnthropic cfg p env).successes = [v]) := by
  have hk : ∀ pk, keyUsable (env.cred pk) = true := by
    intro pk
    rw [hcred]
    simp [keyUsable, hkey]
  have hA := mkChatAdapter_const_response "AlterHQ" "AlterHQ"
    "https://alterhq.com/api/v1" "OpenAI#gpt-4o" cfg p env ⟨true, 200, body⟩ hhttp (hk _)
  have hN := mkAnthropicAdapter_const_response "Anthropic" "Anthropic"
    "https://api.anthropic.com" "claude-opus-4-6" cfg p env ⟨true, 200, body⟩ hhttp (hk _)
  refine ⟨?_, ?_, ?_, ?_, ?_⟩
  · intro hp
    unfold P1.callAlter P1.callAnthropic
    rw [hA, hN, finishCall_parse_none _ _ _ _ _ rfl hp,
        finishCall_parse_none _ _ _ _ _ rfl hp]
    exact ⟨rfl, rfl, rfl, rfl⟩
  · intro j hp hd
    unfold P1.callAlter
    rw [hA, finishCall_decode_error _ _ _ _ _ j rfl hp hd]
    exact ⟨rfl, rfl⟩
  · intro j v hp hd
    unfold P1.callAlter
    rw [hA, finishCall_decode_ok _ _ _ _ _ j v rfl hp hd]
    exact ⟨rfl, rfl⟩
  · intro j hp hd
    unfold P1.callAnthropic
    rw [hN, finishCall_decode_error _ _ _ _ _ j rfl hp hd]
    exact ⟨rfl, rfl⟩
  · intro j v hp hd
    unfold P1.callAnthropic
    rw [hN, finishCall_decode_ok _ _ _ _ _ j v rfl hp hd]
    exact ⟨rfl, rfl⟩

/-- Witness for C6 (amended), at the malformed body `"boom"`: the AlterHQ
adapter reports the parse failure naming the provider and invokes no
success callback. -/
theorem decode_failure_paths_witness :
    (P1.callAlter ⟨some "alter", some "https://alterhq.com/api/v1", some "m"⟩ emptyParams
      ⟨fun _ => some "k", fun _ => ⟨true, 200, "boom"⟩⟩).errors =
      ["AlterHQ: failed to parse response — " ++ jsonSyntaxErr] ∧
    (P1.callAlter ⟨some "alter", some "https://alterhq.com/api/v1", some "m"⟩ emptyParams
      ⟨fun _ => some "k", fun _ => ⟨true, 200, "boom"⟩⟩).successes = [] := by
  have h := (decode_failure_paths "boom" "k"
    ⟨some "alter", some "https://alterhq.com/api/v1", some "m"⟩ emptyParams
    ⟨fun _ => some "k", fun _ => ⟨true, 200, "boom"⟩⟩
    (fun _ => rfl) (fun _ => rfl) (by decide)).1 rfl
  exact ⟨h.1, h.2.1⟩

/-- C10 (counterexample): with the sanitization flag enabled, the
user-role content delivered for a non-local provider is the scrubbed
input, not the caller's non-empty `params.input`. -/
theorem user_content_sanitized_not_input :
    (P1.engineCallAI true (.cfg ⟨some "alter", some "https://alterhq.com/api/v1", some "m"⟩)
      (.pobj ⟨.undef, .undef, .undef, .undef, .undef, .str "a@b.com"⟩) .fn
      ⟨fun _ => some "k", fun _ => ⟨false, 500, "boom"⟩⟩).requests.map
        (fun r => r.bodyUser) = [.str "[EMAIL]"] ∧
    JsStr.str "[EMAIL]" ≠ JsStr.str "a@b.com" := by
  exact ⟨rfl, by decide⟩

/-- `(s || '')` is `.str s`, also when `s` is empty. -/
theorem jsOr_str_empty (s : String) : jsOr (.str s) (.str "") = .str s := by
  by_cases hs : s = ""
  · subst hs
    rfl
  · simp [jsOr, JsStr.truthy, hs]

/-- A falsy value defaults under `||`. -/
theorem jsOr_of_not_truthy {v : JsStr} (h : v.truthy = false) (b : JsStr) :
    jsOr v b = b := by
  simp [jsOr, h]

/-- The sanitization gate is the identity when the flag is off or the
provider is the local `ollama`. -/
theorem applyGate_inactive (flag : Bool) (prov : String) (p : PromptParams)
    (h : flag = false ∨ prov = "ollama") :
    P1.applyGate flag prov p = p := by
  rcases h with h | h
  · subst h
    rfl
  · subst h
    simp [P1.applyGate]

/-- With the flag on and a non-local provider, the gate scrubs
`input || ''` and copies every other field. -/
theorem applyGate_active (prov : String) (p : PromptParams)
    (h : prov ≠ "ollama") :
    P1.applyGate true prov p =
      { input := sanitizeJs (jsOr p.input (.str ""))
        role := p.role, goal := p.goal, steps := p.steps
        output := p.output, exampleVal := p.exampleVal } := by
  have hb : (prov != "ollama") = true := by
    simpa [bne_iff_ne] using h
  simp [P1.applyGate, hb]

/-- Every request `engine.callAI` issues was routed with the resolved
config — the custom config argument, or the registry entry of the
shorthand. -/
theorem engineCallAI_mem_route {flag : Bool} {marg : P1.ModelArg}
    {parg : P1.ParamsArg} {sarg : P1.SuccessArg} {env : Env} {r : HttpReq}
    (h : r ∈ (P1.engineCallAI flag marg parg sarg env).requests)
    (cfg : ProviderConfig)
    (hres : marg = .cfg cfg ∨ ∃ key, marg = .sh key ∧ P1.lookupModel key = some cfg) :
    r ∈ (P1.engineRoute flag cfg (P1.normalizeParams parg) env).requests := by
  unfold P1.engineCallAI at h
  rcases hres with hres | ⟨key, hkey, hlook⟩
  · subst hres
    cases sarg with
    | kw k =>
      by_cases hk : P1.SUCCESS_KEYWORDS.contains k
      · simpa only [hk, if_true] using h
      · simp only [hk, Bool.false_eq_true, if_false] at h
        simp at h
    | fn => exact h
    | other => exact h
  · subst hkey
    cases sarg with
    | kw k =>
      by_cases hk : P1.SUCCESS_KEYWORDS.contains k
      · simp only [hk, if_true] at h
        rw [hlook] at h
        exact h
      · simp only [hk, Bool.false_eq_true, if_false] at h
        simp at h
    | fn =>
      cases hm : P1.lookupModel key with
      | none =>
        rw [hm] at hlook
        cases hlook
      | some cfg2 =>
        simp only [hm] at h
        rw [hm] at hlook
        injection hlook with he
        subst he
        exact h
    | other =>
      cases hm : P1.lookupModel key with
      | none =>
        rw [hm] at hlook
        cases hlook
      | some cfg2 =>
        simp only [hm] at h
        rw [hm] at hlook
        injection hlook with he
        subst he
        exact h

/-- `engineRoute` request content with the dispatched provider named. -/
theorem engineRoute_bodyUser_prov (flag : Bool) (cfg : ProviderConfig)
    (prov : String) (hprov : cfg.provider = some prov) (p : PromptParams)
    (env : Env) (r : HttpReq)
    (h : r ∈ (P1.engineRoute flag cfg p env).requests) :
    r.bodyUser = jsOr (P1.applyGate flag prov p).input (.str "") := by
  obtain ⟨prov2, hp2, hb⟩ := engineRoute_bodyUser flag cfg p env r h
  rw [hprov] at hp2
  injection hp2 with hp2
  subst hp2
  exact hb

/-- C10 (amended): the user-role content placed in every outgoing request
payload is always a string: with the sanitization gate inactive (flag off,
or a local `ollama` provider) it equals `params.input` when that is a
non-empty string and `''` when the input is absent, empty or otherwise
falsy (also when params was omitted or normalized to `{}`); with the gate
active (flag on, non-`ollama` provider) it is the sanitized input string.
No adapter ever sends `undefined` or `null` as the user content. -/
theorem user_content_always_string (flag : Bool) (marg : P1.ModelArg)
    (parg : P1.ParamsArg) (sarg : P1.SuccessArg) (env : Env) (r : HttpReq)
    (h : r ∈ (P1.engineCallAI flag marg parg sarg env).requests) :
    (∃ s, r.bodyUser = .str s) ∧
    (flag = false → r.bodyUser = jsOr (P1.normalizeParams parg).input (.str "")) ∧
    (∀ u, flag = false → (P1.normalizeParams parg).input = .str u → u ≠ "" →
      r.bodyUser = .str u) ∧
    (flag = false → (P1.normalizeParams parg).input.truthy = false →
      r.bodyUser = .str "") ∧
    (∀ cfg prov,
      (marg = .cfg cfg ∨ ∃ key, marg = .sh key ∧ P1.lookupModel key = some cfg) →
      cfg.provider = some prov →
      ((flag = false ∨ prov = "ollama") →
        r.bodyUser = jsOr (P1.normalizeParams parg).input (.str "") ∧
        (∀ u, (P1.normalizeParams parg).input = .str u → u ≠ "" →
          r.bodyUser = .str u) ∧
        ((P1.normalizeParams parg).input.truthy = false → r.bodyUser = .str "")) ∧
      (flag = true → prov ≠ "ollama" →
        (∀ u, (P1.normalizeParams parg).input = .str u →
          r.bodyUser = .str (sanitizeText u)) ∧
        ((P1.normalizeParams parg).input.truthy = false → r.bodyUser = .str ""))) := by
  obtain ⟨prov0, hb0⟩ := engineCallAI_bodyUser flag marg parg sarg env r h
  refine ⟨?_, ?_, ?_, ?_, ?_⟩
  · rw [hb0]
    exact jsOr_empty_is_str _
  · intro hf
    subst hf
    exact hb0
  · intro u hf hin hu
    subst hf
    rw [hb0]
    show jsOr (P1.normalizeParams parg).input (.str "") = .str u
    rw [hin]
    exact jsOr_str_empty u
  · intro hf ht
    subst hf
    rw [hb0]
    show jsOr (P1.normalizeParams parg).input (.str "") = .str ""
    rw [jsOr_of_not_truthy ht]
  · intro cfg prov hres hprov
    have hr := engineCallAI_mem_route h cfg hres
    have hb := engineRoute_bodyUser_prov flag cfg prov hprov _ env r hr
    constructor
    · intro hin
      rw [applyGate_inactive flag prov _ hin] at hb
      refine ⟨hb, ?_, ?_⟩
      · intro u hinp hu
        rw [hb, hinp]
        exact jsOr_str_empty u
      · intro ht
        rw [hb, jsOr_of_not_truthy ht]
    · intro hf hprovne
      subst hf
      rw [applyGate_active prov _ hprovne] at hb
      refine ⟨?_, ?_⟩
      · intro u hinp
        rw [hb, hinp]
        show jsOr (sanitizeJs (jsOr (.str u) (.str ""))) (.str "") = .str (sanitizeText u)
        rw [jsOr_str_empty u]
        show jsOr (.str (sanitizeText u)) (.str "") = .str (sanitizeText u)
        exact jsOr_str_empty _
      · intro ht
        rw [hb, jsOr_of_not_truthy ht]
        show jsOr (sanitizeJs (.str "")) (.str "") = .str ""
        rfl

/-- Witness for C10 (amended): a flag-off Ollama call delivers the plain
string input as user content, and a flag-on AlterHQ call delivers the
sanitized input string. -/
theorem user_content_always_string_witness :
    (HttpReq.mk "http://localhost:11434/api/chat" [("Content-Type", "application/json")]
      "llama3" "" (.str "hi") (some false) none).bodyUser =
      jsOr (P1.normalizeParams (.pstr "hi")).input (.str "") ∧
    (HttpReq.mk "https://alterhq.com/api/v1/chat/completions"
      [("Content-Type", "application/json"), ("Authorization", "Bearer k")]
      "m" "" (.str "[EMAIL]") none none).bodyUser = .str (sanitizeText "a@b.com") :=
  ⟨(user_content_always_string false
      (.cfg ⟨some "ollama", some "http://localhost:11434", some "llama3"⟩) (.pstr "hi") .fn
      ⟨fun _ => none, fun _ => ⟨false, 0, ""⟩⟩
      (HttpReq.mk "http://localhost:11434/api/chat" [("Content-Type", "application/json")]
        "llama3" "" (.str "hi") (some false) none)
      (by decide)).2.1 rfl,
   (((user_content_always_string true
      (.cfg ⟨some "alter", some "https://alterhq.com/api/v1", some "m"⟩)
      (.pobj ⟨.undef, .undef, .undef, .undef, .undef, .str "a@b.com"⟩) .fn
      ⟨fun _ => some "k", fun _ => ⟨false, 500, "boom"⟩⟩
      (HttpReq.mk "https://alterhq.com/api/v1/chat/completions"
        [("Content-Type", "application/json"), ("Authorization", "Bearer k")]
        "m" "" (.str "[EMAIL]") none none)
      (by decide)).2.2.2.2
      ⟨some "alter", some "https://alterhq.com/api/v1", some "m"⟩ "alter"
      (Or.inl rfl) rfl).2 rfl (by decide)).1 "a@b.com" rfl⟩

/-! ## Path-semantics groundwork (claim C3) -/

/-- `prevAfter` at a successor index reads the consumed character. -/
theorem prevAfter_succ (prev : Option Char) (cs : List Char) (j : Nat) :
    prevAfter prev cs (j + 1) = cs.get? j := rfl

/-- `prevAfter` composes along consumption. -/
theorem prevAfter_add (prev : Option Char) (cs : List Char) (n1 n2 : Nat) :
    prevAfter prev cs (n1 + n2) = prevAfter (prevAfter prev cs n1) (cs.drop n1) n2 := by
  cases n2 with
  | zero => rfl
  | succ m =>
    show cs.get? (n1 + m) = (cs.drop n1).get? m
    rw [List.get?_drop]

/-- A path never consumes more than the input. -/
theorem PathR.le_length {r prev cs n} (h : PathR r prev cs n) : n ≤ cs.length := by
  induction h with
  | eps => exact Nat.zero_le _
  | @lit c prev cs hh =>
    have hne : cs ≠ [] := by
      intro e
      subst e
      simp at hh
    have := List.length_pos.mpr hne
    omega
  | @cls p prev cs c hh hp =>
    have hne : cs ≠ [] := by
      intro e
      subst e
      simp at hh
    have := List.length_pos.mpr hne
    omega
  | wb hb => exact Nat.zero_le _
  | seq h1 h2 ih1 ih2 =>
    rw [List.length_drop] at ih2
    omega
  | optS h ih => exact ih
  | optN => exact Nat.zero_le _
  | rep j h1 h2 h3 h4 => exact h3
  | plus j h1 h2 h3 => exact h2

/-- `runLen` is bounded by the length. -/
theorem runLen_le_length (p : Char → Bool) (cs : List Char) :
    runLen p cs ≤ cs.length := by
  induction cs with
  | nil => simp [runLen]
  | cons c t ih =>
    rw [show runLen p (c :: t) = if p c then runLen p t + 1 else 0 from rfl]
    by_cases h : p c
    · rw [if_pos h]
      simpa using ih
    · rw [if_neg h]
      exact Nat.zero_le _

/-- `j ≤ runLen p cs` iff the first `j` characters fit and satisfy `p`. -/
theorem le_runLen_iff (p : Char → Bool) (cs : List Char) (j : Nat) :
    j ≤ runLen p cs ↔ j ≤ cs.length ∧ ∀ c ∈ cs.take j, p c = true := by
  induction cs generalizing j with
  | nil =>
    simp [runLen]
  | cons c t ih =>
    cases j with
    | zero => simp
    | succ m =>
      rw [show runLen p (c :: t) = if p c then runLen p t + 1 else 0 from rfl]
      by_cases h : p c
      · rw [if_pos h]
        constructor
        · intro hle
          have hm : m ≤ runLen p t := by omega
          obtain ⟨h1, h2⟩ := (ih m).mp hm
          refine ⟨by simpa using Nat.succ_le_succ h1, ?_⟩
          intro x hx
          rw [List.take_succ_cons] at hx
          rcases List.mem_cons.mp hx with rfl | hx
          · exact h
          · exact h2 x hx
        · rintro ⟨h1, h2⟩
          have hxc : ∀ x ∈ t.take m, p x = true := fun x hx =>
            h2 x (by rw [List.take_succ_cons]; exact List.mem_cons_of_mem _ hx)
          have h1' : m ≤ t.length := by simpa using Nat.le_of_succ_le_succ h1
          have := (ih m).mpr ⟨h1', hxc⟩
          omega
      · rw [if_neg h]
        constructor
        · intro hle
          exact absurd hle (by omega)
        · rintro ⟨h1, h2⟩
          have hc := h2 c (by rw [List.take_succ_cons]; exact List.mem_cons_self _ _)
          exact absurd hc h

/-- Inversion for `seq` paths. -/
theorem PathR_seq_inv {a b prev cs n} (h : PathR (.seq a b) prev cs n) :
    ∃ n1 n2, n = n1 + n2 ∧ PathR a prev cs n1 ∧
      PathR b (prevAfter prev cs n1) (cs.drop n1) n2 := by
  cases h with
  | seq h1 h2 => exact ⟨_, _, rfl, h1, h2⟩

/-- Inversion for `wb` paths. -/
theorem PathR_wb_inv {prev cs n} (h : PathR .wb prev cs n) :
    n = 0 ∧ isBoundary prev cs.head? = true := by
  cases h with
  | wb hb => exact ⟨rfl, hb⟩

/-- Inversion for `lit` paths. -/
theorem PathR_lit_inv {c prev cs n} (h : PathR (.lit c) prev cs n) :
    n = 1 ∧ cs.head? = some c := by
  cases h with
  | lit hh => exact ⟨rfl, hh⟩

/-- Inversion for `cls` paths. -/
theorem PathR_cls_inv {p prev cs n} (h : PathR (.cls p) prev cs n) :
    n = 1 ∧ ∃ c, cs.head? = some c ∧ p c = true := by
  cases h with
  | cls c hh hp => exact ⟨rfl, c, hh, hp⟩

/-- Inversion for `opt` paths. -/
theorem PathR_opt_inv {a prev cs n} (h : PathR (.opt a) prev cs n) :
    PathR a prev cs n ∨ n = 0 := by
  cases h with
  | optS h => exact Or.inl h
  | optN => exact Or.inr rfl

/-- Inversion for `clsRep` paths. -/
theorem PathR_rep_inv {p lo hi prev cs n} (h : PathR (.clsRep p lo hi) prev cs n) :
    lo ≤ n ∧ n ≤ hi ∧ n ≤ cs.length ∧ ∀ c ∈ cs.take n, p c = true := by
  cases h with
  | rep j h1 h2 h3 h4 => exact ⟨h1, h2, h3, h4⟩

/-- Inversion for `clsPlus` paths. -/
theorem PathR_plus_inv {p lo prev cs n} (h : PathR (.clsPlus p lo) prev cs n) :
    lo ≤ n ∧ n ≤ cs.length ∧ ∀ c ∈ cs.take n, p c = true := by
  cases h with
  | plus j h1 h2 h3 => exact ⟨h1, h2, h3⟩

/-- Paths consume at least `minLen` characters. -/
theorem PathR.minLen_le {r prev cs n} (h : PathR r prev cs n) : minLen r ≤ n := by
  induction h with
  | eps => exact Nat.le_refl _
  | lit hh => exact Nat.le_refl _
  | cls c hh hp => exact Nat.le_refl _
  | wb hb => exact Nat.zero_le _
  | seq h1 h2 ih1 ih2 => exact Nat.add_le_add ih1 ih2
  | optS h ih => exact Nat.zero_le _
  | optN => exact Nat.le_refl _
  | rep j h1 h2 h3 h4 => exact h1
  | plus j h1 h2 h3 => exact h1

/-- Consumed characters lie in the regex's alphabet. -/
theorem PathR.alpha {r prev cs n} (h : PathR r prev cs n) :
    ∀ c ∈ cs.take n, alphaOf r c = true := by
  induction h with
  | eps => simp
  | @lit c prev cs hh =>
    intro x hx
    cases cs with
    | nil => cases hh
    | cons c' rest =>
      simp at hx
      simp at hh
      subst hh
      subst hx
      simp [alphaOf]
  | @cls p prev cs c hh hp =>
    intro x hx
    cases cs with
    | nil => cases hh
    | cons c' rest =>
      simp at hx
      simp at hh
      subst hh
      subst hx
      simpa [alphaOf] using hp
  | wb hb => simp
  | @seq a b prev cs n1 n2 h1 h2 ih1 ih2 =>
    intro x hx
    rw [List.take_add] at hx
    rcases List.mem_append.mp hx with hx | hx
    · simp [alphaOf, ih1 x hx]
    · simp [alphaOf, ih2 x hx]
  | @optS a prev cs n h ih =>
    intro x hx
    simpa [alphaOf] using ih x hx
  | optN => simp
  | rep j h1 h2 h3 h4 =>
    intro x hx
    simpa [alphaOf] using h4 x hx
  | plus j h1 h2 h3 =>
    intro x hx
    simpa [alphaOf] using h3 x hx

/-- Inversion for `eps` paths. -/
theorem PathR_eps_inv {prev cs n} (h : PathR .eps prev cs n) : n = 0 := by
  cases h with
  | eps => rfl

/-- `tryLens` fails iff the continuation fails at every candidate count. -/
theorem tryLens_none_iff (lo : Nat) (prev : Option Char) (cs : List Char)
    (k : Option Char → List Char → Option (List Char)) (J : Nat) :
    tryLens lo prev cs k J = none ↔
      ∀ j, j ≤ J → lo ≤ j → k (prevAfter prev cs j) (cs.drop j) = none := by
  induction J with
  | zero =>
    by_cases h : lo = 0
    · subst h
      rw [show tryLens 0 prev cs k 0 = k prev cs from by simp [tryLens]]
      constructor
      · intro hk j hj _
        have : j = 0 := Nat.le_zero.mp hj
        subst this
        exact hk
      · intro hall
        exact hall 0 (Nat.le_refl _) (Nat.zero_le _)
    · rw [show tryLens lo prev cs k 0 = none from by simp [tryLens, h]]
      constructor
      · intro _ j hj hlo
        have : j = 0 := Nat.le_zero.mp hj
        subst this
        exact absurd (Nat.le_zero.mp hlo) h
      · intro _
        rfl
  | succ J ih =>
    by_cases h : J + 1 < lo
    · rw [show tryLens lo prev cs k (J + 1) = none from by simp [tryLens, h]]
      constructor
      · intro _ j hj hlo
        omega
      · intro _
        rfl
    · cases hk : k (prevAfter prev cs (J + 1)) (cs.drop (J + 1)) with
      | some r =>
        rw [show tryLens lo prev cs k (J + 1) = some r from by simp [tryLens, h, hk]]
        constructor
        · intro he
          cases he
        · intro hall
          have := hall (J + 1) (Nat.le_refl _) (by omega)
          rw [hk] at this
          cases this
      | none =>
        rw [show tryLens lo prev cs k (J + 1) = tryLens lo prev cs k J from by
          simp [tryLens, h, hk]]
        rw [ih]
        constructor
        · intro hall j hj hlo
          rcases Nat.lt_or_ge j (J + 1) with hj' | hj'
          · exact hall j (by omega) hlo
          · have : j = J + 1 := by omega
            subst this
            exact hk
        · intro hall j hj hlo
          exact hall j (by omega) hlo

/-- The backtracking matcher fails iff the continuation fails after every
declarative path. -/
theorem matchRe_none_iff (r : Re) : ∀ (prev : Option Char) (cs : List Char)
    (k : Option Char → List Char → Option (List Char)),
    matchRe r prev cs k = none ↔
      ∀ n, PathR r prev cs n → k (prevAfter prev cs n) (cs.drop n) = none := by
  induction r with
  | eps =>
    intro prev cs k
    constructor
    · intro h n hp
      have := PathR_eps_inv hp
      subst this
      exact h
    · intro h
      exact h 0 PathR.eps
  | lit c =>
    intro prev cs k
    cases cs with
    | nil =>
      constructor
      · intro _ n hp
        rcases PathR_lit_inv hp with ⟨_, hh⟩
        cases hh
      · intro _
        rfl
    | cons c' rest =>
      by_cases hc : c' = c
      · subst hc
        rw [show matchRe (.lit c') prev (c' :: rest) k = k (some c') rest from by
          simp [matchRe]]
        constructor
        · intro h n hp
          rcases PathR_lit_inv hp with ⟨rfl, _⟩
          exact h
        · intro h
          exact h 1 (PathR.lit rfl)
      · rw [show matchRe (.lit c) prev (c' :: rest) k = none from by simp [matchRe, hc]]
        constructor
        · intro _ n hp
          rcases PathR_lit_inv hp with ⟨_, hh⟩
          simp at hh
          exact absurd hh hc
        · intro _
          rfl
  | cls p =>
    intro prev cs k
    cases cs with
    | nil =>
      constructor
      · intro _ n hp
        rcases PathR_cls_inv hp with ⟨_, c, hh, _⟩
        cases hh
      · intro _
        rfl
    | cons c' rest =>
      by_cases hc : p c' = true
      · rw [show matchRe (.cls p) prev (c' :: rest) k = k (some c') rest from by
          simp [matchRe, hc]]
        constructor
        · intro h n hp
          rcases PathR_cls_inv hp with ⟨rfl, c, hh, _⟩
          exact h
        · intro h
          exact h 1 (PathR.cls c' rfl hc)
      · rw [show matchRe (.cls p) prev (c' :: rest) k = none from by simp [matchRe, hc]]
        constructor
        · intro _ n hp
          rcases PathR_cls_inv hp with ⟨_, c, hh, hpc⟩
          simp at hh
          subst hh
          exact absurd hpc hc
        · intro _
          rfl
  | wb =>
    intro prev cs k
    by_cases hb : isBoundary prev cs.head? = true
    · rw [show matchRe .wb prev cs k = k prev cs from by simp [matchRe, hb]]
      constructor
      · intro h n hp
        rcases PathR_wb_inv hp with ⟨rfl, _⟩
        exact h
      · intro h
        exact h 0 (PathR.wb hb)
    · rw [show matchRe .wb prev cs k = none from by simp [matchRe, hb]]
      constructor
      · intro _ n hp
        rcases PathR_wb_inv hp with ⟨_, hb'⟩
        exact absurd hb' hb
      · intro _
        rfl
  | seq a b iha ihb =>
    intro prev cs k
    rw [show matchRe (.seq a b) prev cs k =
      matchRe a prev cs (fun pv cs' => matchRe b pv cs' k) from rfl]
    rw [iha]
    constructor
    · intro h n hp
      obtain ⟨n1, n2, rfl, h1, h2⟩ := PathR_seq_inv hp
      have hb := (ihb (prevAfter prev cs n1) (cs.drop n1) k).mp (h n1 h1) n2 h2
      rw [← prevAfter_add] at hb
      rw [List.drop_drop] at hb
      simpa [Nat.add_comm] using hb
    · intro h n1 h1
      rw [ihb]
      intro n2 h2
      have := h (n1 + n2) (PathR.seq h1 h2)
      rw [prevAfter_add] at this
      rw [show cs.drop (n1 + n2) = (cs.drop n1).drop n2 from by
        rw [List.drop_drop, Nat.add_comm]] at this
      exact this
  | opt a iha =>
    intro prev cs k
    have hsplit : matchRe (.opt a) prev cs k =
        match matchRe a prev cs k with
        | some r => some r
        | none => k prev cs := rfl
    rw [hsplit]
    cases hm : matchRe a prev cs k with
    | some r =>
      constructor
      · intro he
        cases he
      · intro hall
        have := (iha prev cs k).mpr (fun n hp => hall n (PathR.optS hp))
        rw [hm] at this
        cases this
    | none =>
      constructor
      · intro h n hp
        rcases PathR_opt_inv hp with hp' | rfl
        · exact (iha prev cs k).mp hm n hp'
        · exact h
      · intro hall
        exact hall 0 PathR.optN
  | clsRep p lo hi =>
    intro prev cs k
    rw [show matchRe (.clsRep p lo hi) prev cs k =
      tryLens lo prev cs k (min hi (runLen p cs)) from rfl]
    rw [tryLens_none_iff]
    constructor
    · intro hall n hp
      rcases PathR_rep_inv hp with ⟨h1, h2, h3, h4⟩
      have hr : n ≤ runLen p cs := (le_runLen_iff p cs n).mpr ⟨h3, h4⟩
      exact hall n (by omega) h1
    · intro hall j hj hlo
      have hj1 : j ≤ hi := le_trans hj (Nat.min_le_left _ _)
      have hj2 : j ≤ runLen p cs := le_trans hj (Nat.min_le_right _ _)
      obtain ⟨h3, h4⟩ := (le_runLen_iff p cs j).mp hj2
      exact hall j (PathR.rep j hlo hj1 h3 h4)
  | clsPlus p lo =>
    intro prev cs k
    rw [show matchRe (.clsPlus p lo) prev cs k =
      tryLens lo prev cs k (runLen p cs) from rfl]
    rw [tryLens_none_iff]
    constructor
    · intro hall n hp
      rcases PathR_plus_inv hp with ⟨h1, h2, h3⟩
      exact hall n ((le_runLen_iff p cs n).mpr ⟨h2, h3⟩) h1
    · intro hall j hj hlo
      obtain ⟨h3, h4⟩ := (le_runLen_iff p cs j).mp hj
      exact hall j (PathR.plus j hlo h3 h4)

/-- A successful `tryLens` run comes from some candidate count. -/
theorem tryLens_some_ex {lo : Nat} {prev : Option Char} {cs : List Char}
    {k : Option Char → List Char → Option (List Char)} {J : Nat} {res : List Char}
    (h : tryLens lo prev cs k J = some res) :
    ∃ j, j ≤ J ∧ lo ≤ j ∧ k (prevAfter prev cs j) (cs.drop j) = some res := by
  induction J with
  | zero =>
    by_cases hl : lo = 0
    · subst hl
      rw [show tryLens 0 prev cs k 0 = k prev cs from by simp [tryLens]] at h
      exact ⟨0, Nat.le_refl _, Nat.zero_le _, h⟩
    · rw [show tryLens lo prev cs k 0 = none from by simp [tryLens, hl]] at h
      cases h
  | succ J ih =>
    by_cases hlt : J + 1 < lo
    · rw [show tryLens lo prev cs k (J + 1) = none from by simp [tryLens, hlt]] at h
      cases h
    · cases hk : k (prevAfter prev cs (J + 1)) (cs.drop (J + 1)) with
      | some r =>
        rw [show tryLens lo prev cs k (J + 1) = some r from by simp [tryLens, hlt, hk]] at h
        cases h
        exact ⟨J + 1, Nat.le_refl _, by omega, hk⟩
      | none =>
        rw [show tryLens lo prev cs k (J + 1) = tryLens lo prev cs k J from by
          simp [tryLens, hlt, hk]] at h
        obtain ⟨j, hj, hlo, hkj⟩ := ih h
        exact ⟨j, by omega, hlo, hkj⟩

/-- A successful matcher run follows some declarative path. -/
theorem matchRe_some_ex {r : Re} : ∀ {prev : Option Char} {cs : List Char}
    {k : Option Char → List Char → Option (List Char)} {res : List Char},
    matchRe r prev cs k = some res →
    ∃ n, PathR r prev cs n ∧ k (prevAfter prev cs n) (cs.drop n) = some res := by
  induction r with
  | eps =>
    intro prev cs k res h
    exact ⟨0, PathR.eps, h⟩
  | lit c =>
    intro prev cs k res h
    cases cs with
    | nil => cases h
    | cons c' rest =>
      by_cases hc : c' = c
      · subst hc
        rw [show matchRe (.lit c') prev (c' :: rest) k = k (some c') rest from by
          simp [matchRe]] at h
        exact ⟨1, PathR.lit rfl, h⟩
      · rw [show matchRe (.lit c) prev (c' :: rest) k = none from by
          simp [matchRe, hc]] at h
        cases h
  | cls p =>
    intro prev cs k res h
    cases cs with
    | nil => cases h
    | cons c' rest =>
      by_cases hc : p c' = true
      · rw [show matchRe (.cls p) prev (c' :: rest) k = k (some c') rest from by
          simp [matchRe, hc]] at h
        exact ⟨1, PathR.cls c' rfl hc, h⟩
      · rw [show matchRe (.cls p) prev (c' :: rest) k = none from by
          simp [matchRe, hc]] at h
        cases h
  | wb =>
    intro prev cs k res h
    by_cases hb : isBoundary prev cs.head? = true
    · rw [show matchRe .wb prev cs k = k prev cs from by simp [matchRe, hb]] at h
      exact ⟨0, PathR.wb hb, h⟩
    · rw [show matchRe .wb prev cs k = none from by simp [matchRe, hb]] at h
      cases h
  | seq a b iha ihb =>
    intro prev cs k res h
    rw [show matchRe (.seq a b) prev cs k =
      matchRe a prev cs (fun pv cs' => matchRe b pv cs' k) from rfl] at h
    obtain ⟨n1, h1, h1k⟩ := iha h
    obtain ⟨n2, h2, h2k⟩ := ihb h1k
    refine ⟨n1 + n2, PathR.seq h1 h2, ?_⟩
    rw [prevAfter_add]
    rw [show cs.drop (n1 + n2) = (cs.drop n1).drop n2 from by
      rw [List.drop_drop, Nat.add_comm]]
    exact h2k
  | opt a iha =>
    intro prev cs k res h
    have hsplit : matchRe (.opt a) prev cs k =
        match matchRe a prev cs k with
        | some r => some r
        | none => k prev cs := rfl
    rw [hsplit] at h
    cases hm : matchRe a prev cs k with
    | some r =>
      rw [hm] at h
      cases h
      obtain ⟨n, hp, hk⟩ := iha hm
      exact ⟨n, PathR.optS hp, hk⟩
    | none =>
      rw [hm] at h
      exact ⟨0, PathR.optN, h⟩
  | clsRep p lo hi =>
    intro prev cs k res h
    rw [show matchRe (.clsRep p lo hi) prev cs k =
      tryLens lo prev cs k (min hi (runLen p cs)) from rfl] at h
    obtain ⟨j, hj, hlo, hkj⟩ := tryLens_some_ex h
    have hj1 : j ≤ hi := le_trans hj (Nat.min_le_left _ _)
    have hj2 : j ≤ runLen p cs := le_trans hj (Nat.min_le_right _ _)
    obtain ⟨h3, h4⟩ := (le_runLen_iff p cs j).mp hj2
    exact ⟨j, PathR.rep j hlo hj1 h3 h4, hkj⟩
  | clsPlus p lo =>
    intro prev cs k res h
    rw [show matchRe (.clsPlus p lo) prev cs k =
      tryLens lo prev cs k (runLen p cs) from rfl] at h
    obtain ⟨j, hj, hlo, hkj⟩ := tryLens_some_ex h
    obtain ⟨h3, h4⟩ := (le_runLen_iff p cs j).mp hj
    exact ⟨j, PathR.plus j hlo h3 h4, hkj⟩

/-- The engine finds no match at a position iff no path exists there. -/
theorem findMatchAt_none_iff {r : Re} {prev : Option Char} {cs : List Char} :
    findMatchAt r prev cs = none ↔ ∀ n, ¬ PathR r prev cs n := by
  unfold findMatchAt
  cases hm : matchRe r prev cs (fun _ rest => some rest) with
  | none =>
    simp only [Option.map_none']
    constructor
    · intro _ n hp
      have := (matchRe_none_iff r prev cs (fun _ rest => some rest)).mp hm n hp
      cases this
    · intro _
      trivial
  | some res =>
    simp only [Option.map_some']
    constructor
    · intro he
      cases he
    · intro hall
      obtain ⟨n, hp, _⟩ := matchRe_some_ex hm
      exact absurd hp (hall n)

/-- The engine's reported match length is a genuine path length. -/
theorem findMatchAt_some_path {r : Re} {prev : Option Char} {cs : List Char}
    {m : Nat} (h : findMatchAt r prev cs = some m) : PathR r prev cs m := by
  unfold findMatchAt at h
  cases hm : matchRe r prev cs (fun _ rest => some rest) with
  | none =>
    rw [hm] at h
    cases h
  | some res =>
    rw [hm] at h
    simp only [Option.map_some', Option.some.injEq] at h
    obtain ⟨n, hp, hres⟩ := matchRe_some_ex hm
    simp only [Option.some.injEq] at hres
    have hn := hp.le_length
    have hlen : (cs.drop n).length = cs.length - n := List.length_drop ..
    have : m = n := by
      rw [← h, ← hres, hlen]
      omega
    rw [this]
    exact hp

/-- `isBoundary` is the exclusive or of the two wordness values. -/
theorem isBoundary_eq_xor (a b : Option Char) :
    isBoundary a b = xor (isWordOpt a) (isWordOpt b) := by
  cases a <;> cases b <;> rfl

/-- Equal takes with positive bound give equal heads. -/
theorem head?_eq_of_take {cs cs2 : List Char} {n : Nat} (hn : 1 ≤ n)
    (h : cs.take n = cs2.take n) : cs.head? = cs2.head? := by
  cases cs with
  | nil =>
    cases cs2 with
    | nil => rfl
    | cons c2 t2 =>
      cases n with
      | zero => omega
      | succ m => simp at h
  | cons c t =>
    cases cs2 with
    | nil =>
      cases n with
      | zero => omega
      | succ m => simp at h
    | cons c2 t2 =>
      cases n with
      | zero => omega
      | succ m =>
        simp only [List.take_succ_cons, List.cons.injEq] at h
        simp [h.1]

/-- Equal takes give equal elements below the bound. -/
theorem get?_eq_of_take {cs cs2 : List Char} {n : Nat}
    (h : cs.take n = cs2.take n) {j : Nat} (hj : j < n) :
    cs.get? j = cs2.get? j := by
  have h1 : (cs.take n).get? j = (cs2.take n).get? j := by rw [h]
  rwa [List.get?_take hj, List.get?_take hj] at h1

/-- Equal takes restrict to smaller takes. -/
theorem take_eq_of_take {cs cs2 : List Char} {n : Nat}
    (h : cs.take n = cs2.take n) {m : Nat} (hm : m ≤ n) :
    cs.take m = cs2.take m := by
  have h1 : (cs.take n).take m = (cs2.take n).take m := by rw [h]
  rwa [List.take_take, List.take_take, Nat.min_eq_left hm] at h1

/-- A path transfers to any context agreeing on the consumed characters
and on the wordness of the two boundary neighbours. -/
theorem PathR_transfer {r : Re} {prev : Option Char} {cs : List Char} {n : Nat}
    (h : PathR r prev cs n) :
    ∀ (prev2 : Option Char) (cs2 : List Char),
    isWordOpt prev = isWordOpt prev2 →
    cs.take n = cs2.take n →
    n ≤ cs2.length →
    isWordOpt (cs.drop n).head? = isWordOpt (cs2.drop n).head? →
    PathR r prev2 cs2 n := by
  induction h with
  | eps =>
    intro p2 c2 _ _ _ _
    exact PathR.eps
  | @lit c prev cs hh =>
    intro p2 c2 hpw htake hlen htail
    have := head?_eq_of_take (Nat.le_refl 1) htake
    exact PathR.lit (this ▸ hh)
  | @cls p prev cs c hh hp =>
    intro p2 c2 hpw htake hlen htail
    have := head?_eq_of_take (Nat.le_refl 1) htake
    exact PathR.cls c (this ▸ hh) hp
  | @wb prev cs hb =>
    intro p2 c2 hpw htake hlen htail
    refine PathR.wb ?_
    rw [isBoundary_eq_xor] at hb ⊢
    simp only [List.drop_zero] at htail
    rw [← hpw, ← htail]
    exact hb
  | @seq a b prev cs n1 n2 h1 h2 ih1 ih2 =>
    intro p2 c2 hpw htake hlen htail
    have hlen1 := h1.le_length
    have hlen2 := h2.le_length
    rw [List.length_drop] at hlen2
    -- transfer the first component
    have htake1 : cs.take n1 = c2.take n1 := take_eq_of_take htake (by omega)
    have hmid : isWordOpt (cs.drop n1).head? = isWordOpt (c2.drop n1).head? := by
      rcases Nat.lt_or_ge n1 (n1 + n2) with hlt | hge
      · have hj : n1 < n1 + n2 := hlt
        have hg : cs.get? n1 = c2.get? n1 := get?_eq_of_take htake hj
        rw [List.head?_drop, List.head?_drop, ← List.get?_eq_getElem?,
          ← List.get?_eq_getElem?, hg]
      · have hn2 : n2 = 0 := by omega
        subst hn2
        simpa using htail
    have h1' := ih1 p2 c2 hpw htake1 (by omega) hmid
    -- transfer the second component
    have hprevmid : isWordOpt (prevAfter prev cs n1) = isWordOpt (prevAfter p2 c2 n1) := by
      cases n1 with
      | zero => exact hpw
      | succ m =>
        rw [prevAfter_succ, prevAfter_succ, get?_eq_of_take htake (by omega)]
    have htake2 : (cs.drop n1).take n2 = (c2.drop n1).take n2 := by
      have e1 : (cs.drop n1).take n2 = (cs.take (n1 + n2)).drop n1 := by
        rw [List.drop_take]
        congr 1
        omega
      have e2 : (c2.drop n1).take n2 = (c2.take (n1 + n2)).drop n1 := by
        rw [List.drop_take]
        congr 1
        omega
      rw [e1, e2, htake]
    have htail2 : isWordOpt ((cs.drop n1).drop n2).head? =
        isWordOpt ((c2.drop n1).drop n2).head? := by
      simp only [List.drop_drop]
      simpa [Nat.add_comm] using htail
    have h2' := ih2 (prevAfter p2 c2 n1) (c2.drop n1) hprevmid htake2
      (by rw [List.length_drop]; omega) htail2
    exact PathR.seq h1' h2'
  | @optS a prev cs n h ih =>
    intro p2 c2 hpw htake hlen htail
    exact PathR.optS (ih p2 c2 hpw htake hlen htail)
  | optN =>
    intro p2 c2 _ _ _ _
    exact PathR.optN
  | @rep p lo hi prev cs j h1 h2 h3 h4 =>
    intro p2 c2 hpw htake hlen htail
    refine PathR.rep j h1 h2 hlen ?_
    intro c hc
    exact h4 c (htake ▸ hc)
  | @plus p lo prev cs j h1 h2 h3 =>
    intro p2 c2 hpw htake hlen htail
    refine PathR.plus j h1 hlen ?_
    intro c hc
    exact h3 c (htake ▸ hc)

/-- An element read by `get?` belongs to the take one past its index. -/
theorem mem_take_of_get? {cs : List Char} {m : Nat} {c : Char}
    (h : cs.get? m = some c) : c ∈ cs.take (m + 1) := by
  rw [List.take_succ]
  refine List.mem_append.mpr (Or.inr ?_)
  rw [List.get?_eq_getElem?] at h
  rw [h]
  simp

/-- Take-membership is monotone in the bound. -/
theorem mem_take_mono {cs : List Char} {c : Char} {m n : Nat}
    (hm : m ≤ n) (h : c ∈ cs.take m) : c ∈ cs.take n := by
  have he : (cs.take n).take m = cs.take m := by
    rw [List.take_take, Nat.min_eq_left hm]
  rw [← he] at h
  exact List.take_subset _ _ h

/-- A path of a regex whose first element is `\b` starts at a word
boundary. -/
theorem startB_of_wb_head {b : Re} {prev cs n} (h : PathR (.seq .wb b) prev cs n) :
    isBoundary prev cs.head? = true := by
  obtain ⟨n1, n2, _, h1, _⟩ := PathR_seq_inv h
  exact (PathR_wb_inv h1).2

/-- End facts lift through a leading component. -/
theorem endfacts_seq {a b : Re}
    (hb : ∀ prev cs n, PathR b prev cs n →
      isWordOpt (prevAfter prev cs n) = true ∧
      isBoundary (prevAfter prev cs n) (cs.drop n).head? = true) :
    ∀ prev cs n, PathR (.seq a b) prev cs n →
      isWordOpt (prevAfter prev cs n) = true ∧
      isBoundary (prevAfter prev cs n) (cs.drop n).head? = true := by
  intro prev cs n h
  obtain ⟨n1, n2, rfl, h1, h2⟩ := PathR_seq_inv h
  have hfacts := hb _ _ _ h2
  rw [prevAfter_add]
  rw [show cs.drop (n1 + n2) = (cs.drop n1).drop n2 from by
    rw [List.drop_drop, Nat.add_comm]]
  exact hfacts

/-- End facts for a tail of shape `p{lo,} \b` over a word class. -/
theorem endfacts_plus_wb {p : Char → Bool} {lo : Nat} (hlo : 1 ≤ lo)
    (hw : ∀ c, p c = true → isWordChar c = true) :
    ∀ prev cs n, PathR (.seq (.clsPlus p lo) .wb) prev cs n →
      isWordOpt (prevAfter prev cs n) = true ∧
      isBoundary (prevAfter prev cs n) (cs.drop n).head? = true := by
  intro prev cs n h
  obtain ⟨n1, n2, rfl, h1, h2⟩ := PathR_seq_inv h
  obtain ⟨hlo', hlen, hall⟩ := PathR_plus_inv h1
  obtain ⟨rfl, hbd⟩ := PathR_wb_inv h2
  have hword : isWordOpt (prevAfter prev cs n1) = true := by
    cases n1 with
    | zero => omega
    | succ m =>
      rw [prevAfter_succ]
      cases hg : cs.get? m with
      | none =>
        rw [List.get?_eq_none] at hg
        omega
      | some c =>
        have hmem := mem_take_of_get? hg
        exact hw c (hall c hmem)
  constructor
  · simpa using hword
  · simpa using hbd

/-- End facts for a tail of shape `p{lo,hi} \b` over a word class. -/
theorem endfacts_rep_wb {p : Char → Bool} {lo hi : Nat} (hlo : 1 ≤ lo)
    (hw : ∀ c, p c = true → isWordChar c = true) :
    ∀ prev cs n, PathR (.seq (.clsRep p lo hi) .wb) prev cs n →
      isWordOpt (prevAfter prev cs n) = true ∧
      isBoundary (prevAfter prev cs n) (cs.drop n).head? = true := by
  intro prev cs n h
  obtain ⟨n1, n2, rfl, h1, h2⟩ := PathR_seq_inv h
  obtain ⟨hlo', hhi, hlen, hall⟩ := PathR_rep_inv h1
  obtain ⟨rfl, hbd⟩ := PathR_wb_inv h2
  have hword : isWordOpt (prevAfter prev cs n1) = true := by
    cases n1 with
    | zero => omega
    | succ m =>
      rw [prevAfter_succ]
      cases hg : cs.get? m with
      | none =>
        rw [List.get?_eq_none] at hg
        omega
      | some c =>
        have hmem := mem_take_of_get? hg
        exact hw c (hall c hmem)
  constructor
  · simpa using hword
  · simpa using hbd

/-- An anchor found by the first component survives in the composite. -/
theorem anchor_seq_left {a b : Re} {anchor : Char → Bool}
    (ha : ∀ prev cs n, PathR a prev cs n → ∃ c ∈ cs.take n, anchor c = true) :
    ∀ prev cs n, PathR (.seq a b) prev cs n → ∃ c ∈ cs.take n, anchor c = true := by
  intro prev cs n h
  obtain ⟨n1, n2, rfl, h1, _⟩ := PathR_seq_inv h
  obtain ⟨c, hc, hac⟩ := ha _ _ _ h1
  exact ⟨c, mem_take_mono (by omega) hc, hac⟩

/-- An anchor found by the second component survives in the composite. -/
theorem anchor_seq_right {a b : Re} {anchor : Char → Bool}
    (hb : ∀ prev cs n, PathR b prev cs n → ∃ c ∈ cs.take n, anchor c = true) :
    ∀ prev cs n, PathR (.seq a b) prev cs n → ∃ c ∈ cs.take n, anchor c = true := by
  intro prev cs n h
  obtain ⟨n1, n2, rfl, h1, h2⟩ := PathR_seq_inv h
  obtain ⟨c, hc, hac⟩ := hb _ _ _ h2
  refine ⟨c, ?_, hac⟩
  rw [List.take_add]
  exact List.mem_append.mpr (Or.inr hc)

/-- A literal is its own anchor. -/
theorem anchor_lit {c : Char} {anchor : Char → Bool} (hc : anchor c = true) :
    ∀ prev cs n, PathR (.lit c) prev cs n → ∃ x ∈ cs.take n, anchor x = true := by
  intro prev cs n h
  obtain ⟨rfl, hh⟩ := PathR_lit_inv h
  cases cs with
  | nil => cases hh
  | cons c' rest =>
    simp only [List.head?_cons, Option.some.injEq] at hh
    subst hh
    exact ⟨_, by simp, hc⟩

/-- A mandatory class repetition anchors on its first character. -/
theorem anchor_rep {p : Char → Bool} {lo hi : Nat} {anchor : Char → Bool}
    (hlo : 1 ≤ lo) (hpa : ∀ c, p c = true → anchor c = true) :
    ∀ prev cs n, PathR (.clsRep p lo hi) prev cs n →
      ∃ c ∈ cs.take n, anchor c = true := by
  intro prev cs n h
  obtain ⟨hlo', _, hlen, hall⟩ := PathR_rep_inv h
  cases cs with
  | nil =>
    simp at hlen
    omega
  | cons c rest =>
    have hmem : c ∈ (c :: rest).take n := by
      cases n with
      | zero => omega
      | succ m => simp
    exact ⟨c, hmem, hpa c (hall c hmem)⟩

/-- Letters are word characters. -/
theorem tldCls_word : ∀ c, tldCls c = true → isWordChar c = true := by
  intro c h
  simp only [tldCls] at h
  simp [isWordChar, Char.isAlphanum, h]

/-- Digits are word characters. -/
theorem digitCls_word : ∀ c, digitCls c = true → isWordChar c = true := by
  intro c h
  simp only [digitCls] at h
  simp [isWordChar, Char.isAlphanum, h]

/-- `prevAfter` steps over a leading character. -/
theorem prevAfter_cons (prev : Option Char) (c : Char) (cs : List Char) (j : Nat) :
    prevAfter prev (c :: cs) (j + 1) = prevAfter (some c) cs j := by
  cases j with
  | zero => rfl
  | succ m => rfl

/-- The last element of a non-degenerate take is the indexed element. -/
theorem getLast?_take_succ {cs : List Char} {n : Nat} (h : n < cs.length) :
    (cs.take (n + 1)).getLast? = cs.get? n := by
  cases hg : cs.get? n with
  | none =>
    rw [List.get?_eq_none] at hg
    omega
  | some a =>
    rw [List.get?_eq_getElem?] at hg
    rw [List.take_succ, hg]
    simp

/-- After consuming a whole non-empty prefix, the preceding character is
its last element. -/
theorem prevAfter_getLast {u : List Char} (hne : u ≠ []) (prev : Option Char)
    (v : List Char) : prevAfter prev (u ++ v) u.length = u.getLast? := by
  cases u with
  | nil => cases hne rfl
  | cons c u' =>
    rw [show (c :: u').length = u'.length + 1 from rfl, prevAfter_succ]
    rw [List.get?_append (by simp)]
    rw [List.getLast?_eq_getElem?, ← List.get?_eq_getElem?]
    rfl

/-- The chunk decomposition reassembles to the original characters. -/
theorem sourceChunks_chunksOf (r : Re) :
    ∀ (fuel : Nat) (prev : Option Char) (cs : List Char), cs.length ≤ fuel →
      sourceChunks (chunksOf r fuel prev cs) = cs := by
  intro fuel
  induction fuel with
  | zero =>
    intro prev cs h
    have hnil : cs = [] := List.length_eq_zero.mp (Nat.le_zero.mp h)
    subst hnil
    rfl
  | succ f ih =>
    intro prev cs h
    cases cs with
    | nil => rfl
    | cons c t =>
      have hlt : t.length ≤ f := by
        have := h
        simp only [List.length_cons] at this
        omega
      cases hm : findMatchAt r prev (c :: t) with
      | none =>
        rw [show chunksOf r (f + 1) prev (c :: t)
              = .orig c :: chunksOf r f (some c) t from by
            simp [chunksOf, hm]]
        show c :: sourceChunks (chunksOf r f (some c) t) = c :: t
        rw [ih (some c) t hlt]
      | some m =>
        cases m with
        | zero =>
          rw [show chunksOf r (f + 1) prev (c :: t)
                = .orig c :: chunksOf r f (some c) t from by
              simp [chunksOf, hm]]
          show c :: sourceChunks (chunksOf r f (some c) t) = c :: t
          rw [ih (some c) t hlt]
        | succ n =>
          rw [show chunksOf r (f + 1) prev (c :: t)
                = .rep ((c :: t).take (n + 1)) ::
                    chunksOf r f ((c :: t).get? n) ((c :: t).drop (n + 1)) from by
              simp [chunksOf, hm]]
          have hdlen : ((c :: t).drop (n + 1)).length ≤ f := by
            rw [List.length_drop]
            simp only [List.length_cons]
            omega
          show (c :: t).take (n + 1) ++
              sourceChunks (chunksOf r f ((c :: t).get? n) ((c :: t).drop (n + 1)))
              = c :: t
          rw [ih _ _ hdlen, List.take_append_drop]

/-- Rendering the chunk decomposition gives exactly the replace output. -/
theorem renderChunks_chunksOf (r : Re) (lab : List Char) :
    ∀ (fuel : Nat) (prev : Option Char) (cs : List Char), cs.length ≤ fuel →
      renderChunks lab (chunksOf r fuel prev cs) = gReplaceAux r lab fuel prev cs := by
  intro fuel
  induction fuel with
  | zero =>
    intro prev cs h
    have hnil : cs = [] := List.length_eq_zero.mp (Nat.le_zero.mp h)
    subst hnil
    rfl
  | succ f ih =>
    intro prev cs h
    cases cs with
    | nil => rfl
    | cons c t =>
      have hlt : t.length ≤ f := by
        have := h
        simp only [List.length_cons] at this
        omega
      cases hm : findMatchAt r prev (c :: t) with
      | none =>
        rw [show chunksOf r (f + 1) prev (c :: t)
              = .orig c :: chunksOf r f (some c) t from by
            simp [chunksOf, hm],
          show gReplaceAux r lab (f + 1) prev (c :: t)
              = c :: gReplaceAux r lab f (some c) t from by
            simp [gReplaceAux, hm]]
        show c :: renderChunks lab (chunksOf r f (some c) t) = _
        rw [ih (some c) t hlt]
      | some m =>
        cases m with
        | zero =>
          rw [show chunksOf r (f + 1) prev (c :: t)
                = .orig c :: chunksOf r f (some c) t from by
              simp [chunksOf, hm],
            show gReplaceAux r lab (f + 1) prev (c :: t)
                = c :: gReplaceAux r lab f (some c) t from by
              simp [gReplaceAux, hm]]
          show c :: renderChunks lab (chunksOf r f (some c) t) = _
          rw [ih (some c) t hlt]
        | succ n =>
          rw [show chunksOf r (f + 1) prev (c :: t)
                = .rep ((c :: t).take (n + 1)) ::
                    chunksOf r f ((c :: t).get? n) ((c :: t).drop (n + 1)) from by
              simp [chunksOf, hm],
            show gReplaceAux r lab (f + 1) prev (c :: t)
                = lab ++ gReplaceAux r lab f ((c :: t).get? n) ((c :: t).drop (n + 1)) from by
              simp [gReplaceAux, hm]]
          have hdlen : ((c :: t).drop (n + 1)).length ≤ f := by
            rw [List.length_drop]
            simp only [List.length_cons]
            omega
          show lab ++
              renderChunks lab (chunksOf r f ((c :: t).get? n) ((c :: t).drop (n + 1)))
              = _
          rw [ih _ _ hdlen]

/-- The chunk decomposition of a non-nullable pattern satisfies the scan
invariant. -/
theorem goodChunks_chunksOf {r : Re} (hml : 1 ≤ minLen r) :
    ∀ (fuel : Nat) (prev : Option Char) (cs : List Char), cs.length ≤ fuel →
      GoodChunks r prev (chunksOf r fuel prev cs) := by
  intro fuel
  induction fuel with
  | zero =>
    intro prev cs _
    exact GoodChunks.nil
  | succ f ih =>
    intro prev cs h
    cases cs with
    | nil => exact GoodChunks.nil
    | cons c t =>
      have hlt : t.length ≤ f := by
        have := h
        simp only [List.length_cons] at this
        omega
      cases hm : findMatchAt r prev (c :: t) with
      | none =>
        rw [show chunksOf r (f + 1) prev (c :: t)
              = .orig c :: chunksOf r f (some c) t from by
            simp [chunksOf, hm]]
        refine GoodChunks.orig ?_ (ih (some c) t hlt)
        rw [sourceChunks_chunksOf r f (some c) t hlt]
        intro n hp
        exact findMatchAt_none_iff.mp hm (n + 1) hp
      | some m =>
        cases m with
        | zero =>
          exact absurd (findMatchAt_some_path hm).minLen_le (by omega)
        | succ n =>
          have hpath := findMatchAt_some_path hm
          have hle : n + 1 ≤ (c :: t).length := hpath.le_length
          rw [show chunksOf r (f + 1) prev (c :: t)
                = .rep ((c :: t).take (n + 1)) ::
                    chunksOf r f ((c :: t).get? n) ((c :: t).drop (n + 1)) from by
              simp [chunksOf, hm]]
          have hdlen : ((c :: t).drop (n + 1)).length ≤ f := by
            rw [List.length_drop]
            simp only [List.length_cons]
            omega
          have htlen : ((c :: t).take (n + 1)).length = n + 1 := by
            rw [List.length_take]
            omega
          refine GoodChunks.rep _
            (by rw [show (c :: t).take (n + 1) = c :: t.take n from rfl]
                exact List.cons_ne_nil _ _) ?_ ?_
          · rw [sourceChunks_chunksOf r f _ _ hdlen, List.take_append_drop, htlen]
            exact hpath
          · rw [getLast?_take_succ (by simp only [List.length_cons] at hle ⊢; omega)]
            exact ih _ _ hdlen

/-- Scanning clean text stays clean past any prefix. -/
theorem NoMatches_append_drop {p : Re} :
    ∀ (u : List Char) (prev : Option Char) (v : List Char),
    NoMatches p prev (u ++ v) →
    NoMatches p (prevAfter prev (u ++ v) u.length) v := by
  intro u
  induction u with
  | nil =>
    intro prev v h
    exact h
  | cons c u' ih =>
    intro prev v h
    obtain ⟨_, h2⟩ := h
    have hrec := ih (some c) v h2
    rw [show ((c :: u') ++ v) = c :: (u' ++ v) from rfl,
        show (c :: u').length = u'.length + 1 from rfl,
        prevAfter_cons]
    exact hrec

/-- A chunk list over match-free source text is clean at every untouched
position. -/
theorem origClean_of_noMatches {p r : Re} :
    ∀ (chs : List Chunk) (prev : Option Char),
    GoodChunks r prev chs →
    NoMatches p prev (sourceChunks chs) →
    OrigClean p prev chs := by
  intro chs
  induction chs with
  | nil =>
    intro prev _ _
    exact trivial
  | cons ch t ih =>
    intro prev hg hn
    cases ch with
    | orig c =>
      cases hg with
      | orig hno hrest =>
        obtain ⟨h1, h2⟩ := hn
        exact ⟨h1, ih (some c) hrest h2⟩
    | rep u =>
      cases hg with
      | rep _ hne hpath hrest =>
        have hd := NoMatches_append_drop u prev (sourceChunks t) hn
        rw [prevAfter_getLast hne] at hd
        exact ih u.getLast? hrest hd

/-- The invariant of a pattern's own scan yields cleanness for that same
pattern. -/
theorem origClean_of_goodChunks {r : Re} :
    ∀ (chs : List Chunk) (prev : Option Char),
    GoodChunks r prev chs → OrigClean r prev chs := by
  intro chs
  induction chs with
  | nil =>
    intro prev _
    exact trivial
  | cons ch t ih =>
    intro prev hg
    cases ch with
    | orig c =>
      cases hg with
      | orig hno hrest => exact ⟨hno, ih (some c) hrest⟩
    | rep u =>
      cases hg with
      | rep _ _ _ hrest => exact ih u.getLast? hrest

/-- The last element of a list is a member. -/
theorem mem_of_getLast?_eq : ∀ {l : List Char} {a : Char},
    l.getLast? = some a → a ∈ l := by
  intro l
  induction l with
  | nil =>
    intro a h
    cases h
  | cons c t ih =>
    intro a h
    cases t with
    | nil =>
      simp only [List.getLast?_singleton, Option.some.injEq] at h
      subst h
      simp
    | cons c2 t2 =>
      rw [List.getLast?_cons_cons] at h
      exact List.mem_cons_of_mem _ (ih h)

/-- No pattern path can start inside a replacement label: the consumed
prefix either stays within the anchor-free label or swallows its closing
bracket. -/
theorem no_path_in_label {p : Re} {ap : Char → Bool} (hp : PatFacts p ap)
    {d w : List Char} {prevT : Option Char} {n : Nat}
    (hmem : ']' ∈ d) (hno : ∀ x ∈ d, ap x = false) :
    ¬ PathR p prevT (d ++ w) (n + 1) := by
  intro hpath
  rcases le_or_lt (n + 1) d.length with hle | hlt
  · obtain ⟨x, hx, hax⟩ := hp.anchorOk hpath
    rw [List.take_append_eq_append_take, Nat.sub_eq_zero_of_le hle] at hx
    simp only [List.take_zero, List.append_nil] at hx
    have hfalse := hno x (List.take_subset _ _ hx)
    rw [hfalse] at hax
    simp at hax
  · have hsub : d ⊆ (d ++ w).take (n + 1) := by
      intro x hx
      rw [List.take_append_eq_append_take,
        List.take_all_of_le (by omega : d.length ≤ n + 1)]
      exact List.mem_append.mpr (Or.inl hx)
    have hbr := hp.alphaOk hpath ']' (hsub hmem)
    rw [hp.noBracket.2] at hbr
    simp at hbr

/-- Scanning through a whole replacement label yields no matches at any
of its positions, handing the scan to the rest with `]` as context. -/
theorem label_walk {p : Re} {ap : Char → Bool} (hp : PatFacts p ap) :
    ∀ (d : List Char), d.getLast? = some ']' → (∀ x ∈ d, ap x = false) →
    ∀ (prevT : Option Char) (w : List Char), NoMatches p (some ']') w →
    NoMatches p prevT (d ++ w) := by
  intro d
  induction d with
  | nil =>
    intro h
    cases h
  | cons c d' ih =>
    intro hlast hno prevT w hw
    refine ⟨?_, ?_⟩
    · intro n
      exact no_path_in_label hp (mem_of_getLast?_eq hlast) hno
    · cases d' with
      | nil =>
        have hc : c = ']' := by
          simp only [List.getLast?_singleton, Option.some.injEq] at hlast
          exact hlast
        subst hc
        exact hw
      | cons c2 d2 =>
        rw [List.getLast?_cons_cons] at hlast
        exact ih hlast (fun x hx => hno x (List.mem_cons_of_mem _ hx)) (some c) w hw

/-- A bracket-free prefix of the rendered text of a chunk list agrees
with the source text, stays within it, and ends either in sync or
butting against a label whose source side starts at a word boundary. -/
theorem renderAgree {p q : Re} {aq : Char → Bool} (hq : PatFacts q aq)
    (hpb : alphaOf p '[' = false) {lab : List Char}
    (hlabH : lab.head? = some '[') :
    ∀ (t : List Chunk) (po : Option Char), GoodChunks q po t →
    ∀ m, m ≤ (renderChunks lab t).length →
    (∀ x ∈ (renderChunks lab t).take m, alphaOf p x = true) →
    (renderChunks lab t).take m = (sourceChunks t).take m ∧
    m ≤ (sourceChunks t).length ∧
    (isWordOpt ((renderChunks lab t).drop m).head?
       = isWordOpt ((sourceChunks t).drop m).head? ∨
     (isWordOpt ((renderChunks lab t).drop m).head? = false ∧
      isBoundary (prevAfter po (sourceChunks t) m)
        ((sourceChunks t).drop m).head? = true)) := by
  intro t
  induction t with
  | nil =>
    intro po _ m hm _
    have hm0 : m = 0 := Nat.le_zero.mp hm
    subst hm0
    exact ⟨rfl, Nat.zero_le _, Or.inl rfl⟩
  | cons ch t' ih =>
    intro po hg m hm hcond
    cases ch with
    | orig c =>
      cases hg with
      | orig hnoQ hg' =>
        cases m with
        | zero => exact ⟨rfl, Nat.zero_le _, Or.inl rfl⟩
        | succ k =>
          have hm2 : k + 1 ≤ (renderChunks lab t').length + 1 := hm
          have hm' : k ≤ (renderChunks lab t').length := by omega
          have hcond' : ∀ x ∈ (renderChunks lab t').take k, alphaOf p x = true :=
            fun x hx => hcond x (List.mem_cons_of_mem _ hx)
          obtain ⟨ht, hl, hd⟩ := ih (some c) hg' k hm' hcond'
          refine ⟨?_, ?_, ?_⟩
          · show c :: (renderChunks lab t').take k = c :: (sourceChunks t').take k
            rw [ht]
          · show k + 1 ≤ (sourceChunks t').length + 1
            omega
          · rcases hd with h | h
            · exact Or.inl h
            · refine Or.inr ⟨h.1, ?_⟩
              rw [show sourceChunks (Chunk.orig c :: t') = c :: sourceChunks t'
                    from rfl, prevAfter_cons]
              exact h.2
    | rep u =>
      cases hg with
      | rep _ hne hpathQ hg' =>
        cases lab with
        | nil => cases hlabH
        | cons l0 labt =>
          have hl0 : l0 = '[' := by simpa using hlabH
          subst hl0
          cases m with
          | zero =>
            refine ⟨rfl, Nat.zero_le _, Or.inr ⟨?_, ?_⟩⟩
            · show isWordOpt
                (List.drop 0 (renderChunks ('[' :: labt) (Chunk.rep u :: t'))).head?
                = false
              rfl
            · exact hq.startB hpathQ
          | succ k =>
            exfalso
            have hbr : '[' ∈ (renderChunks ('[' :: labt) (Chunk.rep u :: t')).take (k + 1) := by
              show '[' ∈ '[' ::
                (labt ++ renderChunks ('[' :: labt) t').take k
              exact List.mem_cons_self _ _
            have hfa := hcond '[' hbr
            rw [hpb] at hfa
            simp at hfa

/-- Master lemma: the rendered output of a good chunk scan has no match
of any bracket-excluding, boundary-delimited pattern whose anchors the
label avoids, provided the source was clean at every untouched position. -/
theorem render_NoMatches {p q : Re} {ap aq : Char → Bool}
    (hp : PatFacts p ap) (hq : PatFacts q aq) {lab : List Char}
    (hlabH : lab.head? = some '[') (hlabL : lab.getLast? = some ']')
    (hlabA : ∀ x ∈ lab, ap x = false) :
    ∀ (chs : List Chunk) (prevT prevO : Option Char),
    GoodChunks q prevO chs →
    OrigClean p prevO chs →
    (isWordOpt prevT = isWordOpt prevO ∨
      (isWordOpt prevT = false ∧ isWordOpt prevO = true ∧
       isBoundary prevO (sourceChunks chs).head? = true)) →
    NoMatches p prevT (renderChunks lab chs) := by
  intro chs
  induction chs with
  | nil =>
    intro prevT prevO _ _ _
    exact trivial
  | cons ch t ih =>
    intro prevT prevO hg hc hinv
    cases ch with
    | orig c =>
      cases hg with
      | orig hnoQ hg' =>
        obtain ⟨hnoP, hc'⟩ := hc
        refine ⟨?_, ih (some c) (some c) hg' hc' (Or.inl rfl)⟩
        intro n hpath
        rcases hinv with hsync | hseam
        · -- in-sync case: pull the rendered path back to the source text
          have hlen : n + 1 ≤ (renderChunks lab t).length + 1 := hpath.le_length
          have halpha := hp.alphaOk hpath
          have hm' : n ≤ (renderChunks lab t).length := by omega
          have hcond' : ∀ x ∈ (renderChunks lab t).take n, alphaOf p x = true :=
            fun x hx => halpha x (List.mem_cons_of_mem _ hx)
          obtain ⟨ht, hl, hd⟩ := renderAgree hq hp.noBracket.1 hlabH t (some c)
            hg' n hm' hcond'
          have hpa : prevAfter (some c) (renderChunks lab t) n
              = prevAfter (some c) (sourceChunks t) n := by
            cases n with
            | zero => rfl
            | succ j =>
              rw [prevAfter_succ, prevAfter_succ]
              exact get?_eq_of_take ht (Nat.lt_succ_self j)
          have hew : isWordOpt (prevAfter (some c) (renderChunks lab t) n) = true := by
            rw [← prevAfter_cons prevT c (renderChunks lab t) n]
            exact hp.endWord hpath
          have hwa : isWordOpt ((renderChunks lab t).drop n).head?
              = isWordOpt ((sourceChunks t).drop n).head? := by
            rcases hd with h | h
            · exact h
            · obtain ⟨h1, h2⟩ := h
              rw [← hpa] at h2
              rw [isBoundary_eq_xor, hew, Bool.true_xor] at h2
              rw [h1]
              cases hx : isWordOpt ((sourceChunks t).drop n).head? with
              | false => rfl
              | true =>
                rw [hx] at h2
                simp at h2
          have hpath' := PathR_transfer hpath prevO (c :: sourceChunks t) hsync
            (by rw [List.take_succ_cons, List.take_succ_cons, ht])
            (by simp only [List.length_cons]; omega)
            (by rw [List.drop_succ_cons, List.drop_succ_cons]; exact hwa)
          exact hnoP n hpath'
        · -- seam case: the pattern would need a word character right
          -- after a match end, contradicting the match's end boundary
          obtain ⟨hwT, hwO, hbd⟩ := hseam
          have hsb := hp.startB hpath
          rw [show (c :: renderChunks lab t).head? = some c from rfl] at hsb
          rw [isBoundary_eq_xor, hwT, Bool.false_xor] at hsb
          rw [show (sourceChunks (Chunk.orig c :: t)).head? = some c from rfl] at hbd
          rw [isBoundary_eq_xor, hwO, Bool.true_xor, hsb] at hbd
          simp at hbd
    | rep u =>
      cases hg with
      | rep _ hne hpathQ hg' =>
        have hc' : OrigClean p u.getLast? t := hc
        show NoMatches p prevT (lab ++ renderChunks lab t)
        refine label_walk hp lab hlabL hlabA prevT _ ?_
        refine ih (some ']') u.getLast? hg' hc' (Or.inr ⟨rfl, ?_, ?_⟩)
        · have hewq := hq.endWord hpathQ
          rw [prevAfter_getLast hne] at hewq
          exact hewq
        · have hebq := hq.endB hpathQ
          rw [prevAfter_getLast hne, List.drop_left] at hebq
          exact hebq

/-- A global replace leaves match-free text untouched. -/
theorem gReplaceAux_id {r : Re} {lab : List Char} :
    ∀ (fuel : Nat) (prev : Option Char) (cs : List Char),
    NoMatches r prev cs → gReplaceAux r lab fuel prev cs = cs := by
  intro fuel
  induction fuel with
  | zero =>
    intro prev cs _
    rfl
  | succ f ih =>
    intro prev cs hn
    cases cs with
    | nil => rfl
    | cons c t =>
      obtain ⟨h1, h2⟩ := hn
      cases hm : findMatchAt r prev (c :: t) with
      | none =>
        rw [show gReplaceAux r lab (f + 1) prev (c :: t)
              = c :: gReplaceAux r lab f (some c) t from by
            simp [gReplaceAux, hm]]
        rw [ih (some c) t h2]
      | some m =>
        cases m with
        | zero =>
          rw [show gReplaceAux r lab (f + 1) prev (c :: t)
                = c :: gReplaceAux r lab f (some c) t from by
              simp [gReplaceAux, hm]]
          rw [ih (some c) t h2]
        | succ n =>
          exact absurd (findMatchAt_some_path hm) (h1 n)

/-- String-level identity of a global replace on match-free text. -/
theorem gReplace_id {r : Re} {lab : String} {s : String}
    (h : NoMatches r none s.data) : gReplace r lab s = s := by
  unfold gReplace
  rw [gReplaceAux_id _ _ _ h]

/-- A pass leaves its output free of its own pattern. -/
theorem pass_self_noMatches {r : Re} {a : Char → Bool} (hr : PatFacts r a)
    (hml : 1 ≤ minLen r) {lab : String}
    (hlabH : lab.data.head? = some '[') (hlabL : lab.data.getLast? = some ']')
    (hlabA : ∀ x ∈ lab.data, a x = false) (s : String) :
    NoMatches r none (gReplace r lab s).data := by
  show NoMatches r none (gReplaceAux r lab.data s.data.length none s.data)
  rw [← renderChunks_chunksOf r lab.data s.data.length none s.data (Nat.le_refl _)]
  exact render_NoMatches hr hr hlabH hlabL hlabA _ none none
    (goodChunks_chunksOf hml _ none s.data (Nat.le_refl _))
    (origClean_of_goodChunks _ none (goodChunks_chunksOf hml _ none s.data (Nat.le_refl _)))
    (Or.inl rfl)

/-- A pass never reintroduces matches of an anchor-disjoint pattern. -/
theorem pass_preserve_noMatches {p q : Re} {ap aq : Char → Bool}
    (hp : PatFacts p ap) (hq : PatFacts q aq) (hmlq : 1 ≤ minLen q) {lab : String}
    (hlabH : lab.data.head? = some '[') (hlabL : lab.data.getLast? = some ']')
    (hlabA : ∀ x ∈ lab.data, ap x = false) {s : String}
    (hs : NoMatches p none s.data) :
    NoMatches p none (gReplace q lab s).data := by
  show NoMatches p none (gReplaceAux q lab.data s.data.length none s.data)
  rw [← renderChunks_chunksOf q lab.data s.data.length none s.data (Nat.le_refl _)]
  have hg := goodChunks_chunksOf hmlq s.data.length none s.data (Nat.le_refl _)
  refine render_NoMatches hp hq hlabH hlabL hlabA _ none none hg ?_ (Or.inl rfl)
  refine origClean_of_noMatches _ none hg ?_
  rw [sourceChunks_chunksOf q s.data.length none s.data (Nat.le_refl _)]
  exact hs

/-- The sanitize fold written out as the five nested passes. -/
theorem sanitizeText_eq (s : String) :
    sanitizeText s = gReplace ipRe "[IP]" (gReplace cardRe "[CARD]"
      (gReplace ssnRe "[SSN]" (gReplace phoneRe "[PHONE]"
        (gReplace emailRe "[EMAIL]" s)))) := rfl

/-- All structural facts of the email pattern. -/
theorem emailRe_facts : PatFacts emailRe emailAnchor := by
  have hend : ∀ prev cs n, PathR emailRe prev cs n →
      isWordOpt (prevAfter prev cs n) = true ∧
      isBoundary (prevAfter prev cs n) (cs.drop n).head? = true :=
    endfacts_seq (endfacts_seq (endfacts_seq (endfacts_seq (endfacts_seq
      (endfacts_plus_wb (by omega) tldCls_word)))))
  have hanc : ∀ prev cs n, PathR emailRe prev cs n →
      ∃ c ∈ cs.take n, emailAnchor c = true :=
    anchor_seq_right (anchor_seq_right (anchor_seq_left (anchor_lit (by decide))))
  refine ⟨?_, ?_, ?_, ?_, ?_, ?_, ?_⟩
  · intro prev cs n h
    have hm : minLen emailRe = 6 := by decide
    have := h.minLen_le
    omega
  · intro prev cs n h
    exact startB_of_wb_head h
  · intro prev cs n h
    exact (hend prev cs n h).2
  · intro prev cs n h
    exact (hend prev cs n h).1
  · intro prev cs n h
    exact h.alpha
  · intro prev cs n h
    exact hanc prev cs n h
  · exact ⟨by decide, by decide⟩

/-- All structural facts of the phone pattern. -/
theorem phoneRe_facts : PatFacts phoneRe digitAnchor := by
  have hend : ∀ prev cs n, PathR phoneRe prev cs n →
      isWordOpt (prevAfter prev cs n) = true ∧
      isBoundary (prevAfter prev cs n) (cs.drop n).head? = true :=
    endfacts_seq (endfacts_seq (endfacts_seq (endfacts_seq (endfacts_seq
      (endfacts_seq (endfacts_seq (endfacts_seq
      (endfacts_rep_wb (by omega) digitCls_word))))))))
  have hanc : ∀ prev cs n, PathR phoneRe prev cs n →
      ∃ c ∈ cs.take n, digitAnchor c = true :=
    anchor_seq_right (anchor_seq_right (anchor_seq_right
      (anchor_seq_left (anchor_rep (by omega) (fun c h => h)))))
  refine ⟨?_, ?_, ?_, ?_, ?_, ?_, ?_⟩
  · intro prev cs n h
    have hm : minLen phoneRe = 10 := by decide
    have := h.minLen_le
    omega
  · intro prev cs n h
    exact startB_of_wb_head h
  · intro prev cs n h
    exact (hend prev cs n h).2
  · intro prev cs n h
    exact (hend prev cs n h).1
  · intro prev cs n h
    exact h.alpha
  · intro prev cs n h
    exact hanc prev cs n h
  · exact ⟨by decide, by decide⟩

/-- All structural facts of the SSN pattern. -/
theorem ssnRe_facts : PatFacts ssnRe digitAnchor := by
  have hend : ∀ prev cs n, PathR ssnRe prev cs n →
      isWordOpt (prevAfter prev cs n) = true ∧
      isBoundary (prevAfter prev cs n) (cs.drop n).head? = true :=
    endfacts_seq (endfacts_seq (endfacts_seq (endfacts_seq (endfacts_seq
      (endfacts_rep_wb (by omega) digitCls_word)))))
  have hanc : ∀ prev cs n, PathR ssnRe prev cs n →
      ∃ c ∈ cs.take n, digitAnchor c = true :=
    anchor_seq_right (anchor_seq_left (anchor_rep (by omega) (fun c h => h)))
  refine ⟨?_, ?_, ?_, ?_, ?_, ?_, ?_⟩
  · intro prev cs n h
    have hm : minLen ssnRe = 11 := by decide
    have := h.minLen_le
    omega
  · intro prev cs n h
    exact startB_of_wb_head h
  · intro prev cs n h
    exact (hend prev cs n h).2
  · intro prev cs n h
    exact (hend prev cs n h).1
  · intro prev cs n h
    exact h.alpha
  · intro prev cs n h
    exact hanc prev cs n h
  · exact ⟨by decide, by decide⟩

/-- All structural facts of the card pattern. -/
theorem cardRe_facts : PatFacts cardRe digitAnchor := by
  have hend : ∀ prev cs n, PathR cardRe prev cs n →
      isWordOpt (prevAfter prev cs n) = true ∧
      isBoundary (prevAfter prev cs n) (cs.drop n).head? = true :=
    endfacts_seq (endfacts_seq (endfacts_seq (endfacts_seq
      (endfacts_rep_wb (by omega) digitCls_word))))
  have hanc : ∀ prev cs n, PathR cardRe prev cs n →
      ∃ c ∈ cs.take n, digitAnchor c = true :=
    anchor_seq_right (anchor_seq_right (anchor_seq_right (anchor_seq_right
      (anchor_seq_left (anchor_rep (by omega) (fun c h => h))))))
  refine ⟨?_, ?_, ?_, ?_, ?_, ?_, ?_⟩
  · intro prev cs n h
    have hm : minLen cardRe = 16 := by decide
    have := h.minLen_le
    omega
  · intro prev cs n h
    exact startB_of_wb_head h
  · intro prev cs n h
    exact (hend prev cs n h).2
  · intro prev cs n h
    exact (hend prev cs n h).1
  · intro prev cs n h
    exact h.alpha
  · intro prev cs n h
    exact hanc prev cs n h
  · exact ⟨by decide, by decide⟩

/-- All structural facts of the IP pattern. -/
theorem ipRe_facts : PatFacts ipRe digitAnchor := by
  have hend : ∀ prev cs n, PathR ipRe prev cs n →
      isWordOpt (prevAfter prev cs n) = true ∧
      isBoundary (prevAfter prev cs n) (cs.drop n).head? = true :=
    endfacts_seq (endfacts_seq (endfacts_seq (endfacts_seq
      (endfacts_rep_wb (by omega) digitCls_word))))
  have hanc : ∀ prev cs n, PathR ipRe prev cs n →
      ∃ c ∈ cs.take n, digitAnchor c = true :=
    anchor_seq_right (anchor_seq_right (anchor_seq_right (anchor_seq_right
      (anchor_seq_left (anchor_rep (by omega) (fun c h => h))))))
  refine ⟨?_, ?_, ?_, ?_, ?_, ?_, ?_⟩
  · intro prev cs n h
    have hm : minLen ipRe = 7 := by decide
    have := h.minLen_le
    omega
  · intro prev cs n h
    exact startB_of_wb_head h
  · intro prev cs n h
    exact (hend prev cs n h).2
  · intro prev cs n h
    exact (hend prev cs n h).1
  · intro prev cs n h
    exact h.alpha
  · intro prev cs n h
    exact hanc prev cs n h
  · exact ⟨by decide, by decide⟩

/-- After the full sanitize fold, no email-pattern match remains. -/
theorem sanitize_noMatches_email (x : String) :
    NoMatches emailRe none (sanitizeText x).data := by
  rw [sanitizeText_eq]
  refine pass_preserve_noMatches emailRe_facts ipRe_facts (by decide)
    (by decide) (by decide) (by decide) ?_
  refine pass_preserve_noMatches emailRe_facts cardRe_facts (by decide)
    (by decide) (by decide) (by decide) ?_
  refine pass_preserve_noMatches emailRe_facts ssnRe_facts (by decide)
    (by decide) (by decide) (by decide) ?_
  refine pass_preserve_noMatches emailRe_facts phoneRe_facts (by decide)
    (by decide) (by decide) (by decide) ?_
  exact pass_self_noMatches emailRe_facts (by decide) (by decide) (by decide)
    (by decide) _

/-- After the full sanitize fold, no phone-pattern match remains. -/
theorem sanitize_noMatches_phone (x : String) :
    NoMatches phoneRe none (sanitizeText x).data := by
  rw [sanitizeText_eq]
  refine pass_preserve_noMatches phoneRe_facts ipRe_facts (by decide)
    (by decide) (by decide) (by decide) ?_
  refine pass_preserve_noMatches phoneRe_facts cardRe_facts (by decide)
    (by decide) (by decide) (by decide) ?_
  refine pass_preserve_noMatches phoneRe_facts ssnRe_facts (by decide)
    (by decide) (by decide) (by decide) ?_
  exact pass_self_noMatches phoneRe_facts (by decide) (by decide) (by decide)
    (by decide) _

/-- After the full sanitize fold, no SSN-pattern match remains. -/
theorem sanitize_noMatches_ssn (x : String) :
    NoMatches ssnRe none (sanitizeText x).data := by
  rw [sanitizeText_eq]
  refine pass_preserve_noMatches ssnRe_facts ipRe_facts (by decide)
    (by decide) (by decide) (by decide) ?_
  refine pass_preserve_noMatches ssnRe_facts cardRe_facts (by decide)
    (by decide) (by decide) (by decide) ?_
  exact pass_self_noMatches ssnRe_facts (by decide) (by decide) (by decide)
    (by decide) _

/-- After the full sanitize fold, no card-pattern match remains. -/
theorem sanitize_noMatches_card (x : String) :
    NoMatches cardRe none (sanitizeText x).data := by
  rw [sanitizeText_eq]
  refine pass_preserve_noMatches cardRe_facts ipRe_facts (by decide)
    (by decide) (by decide) (by decide) ?_
  exact pass_self_noMatches cardRe_facts (by decide) (by decide) (by decide)
    (by decide) _

/-- After the full sanitize fold, no IP-pattern match remains. -/
theorem sanitize_noMatches_ip (x : String) :
    NoMatches ipRe none (sanitizeText x).data := by
  rw [sanitizeText_eq]
  exact pass_self_noMatches ipRe_facts (by decide) (by decide) (by decide)
    (by decide) _

/-- `sanitizeText` is idempotent. -/
theorem sanitizeText_idem (x : String) :
    sanitizeText (sanitizeText x) = sanitizeText x := by
  rw [show sanitizeText (sanitizeText x)
        = gReplace ipRe "[IP]" (gReplace cardRe "[CARD]"
            (gReplace ssnRe "[SSN]" (gReplace phoneRe "[PHONE]"
              (gReplace emailRe "[EMAIL]" (sanitizeText x))))) from rfl]
  rw [gReplace_id (sanitize_noMatches_email x),
      gReplace_id (sanitize_noMatches_phone x),
      gReplace_id (sanitize_noMatches_ssn x),
      gReplace_id (sanitize_noMatches_card x),
      gReplace_id (sanitize_noMatches_ip x)]

/-- **C3** (sanitize idempotence): for the built-in rule list, no rule's
replacement label contains a match of any later rule's pattern (the
claim's precondition, checked decidably on the five labels), and under
it `sanitizeText` is idempotent — `sanitizeText (sanitizeText x) =
sanitizeText x` for every string `x`; in particular
`sanitizeText "contact me at a@b.com" = "contact me at [EMAIL]"`. -/
theorem sanitize_idempotent :
    PII_PATTERNS.Pairwise (fun a b => anyMatchB b.1 none a.2.data = false) ∧
    (∀ x : String, sanitizeText (sanitizeText x) = sanitizeText x) ∧
    sanitizeText "contact me at a@b.com" = "contact me at [EMAIL]" :=
  ⟨by decide, fun x => sanitizeText_idem x, by decide⟩

end DraftsAI
